import Mathlib

/-!
PHAT `benchmark.cpp`: the combinatorial benchmark driver

A shallow embedding of `src/benchmark.cpp` (command line parsing, the nested
sweep over files, algorithms, representations and ansaetze, the 24-cell
dispatch and the reporting), followed by theorems about it.

Modelling conventions

* `argv[1..argc-1]` is a `List String`; `argc` is its length plus one.
* The process state (`Sys`) holds the text written so far to `std::cout` and
  `std::cerr` and a trace of the calls made into the PHAT library.
* The PHAT library is external: the outcome of each `load_binary`/`load_ascii`
  call and each reading of `omp_get_wtime` is given by an oracle (`World`),
  indexed by the number of earlier calls, so that outcomes may change from one
  call to the next.
* `exit( EXIT_FAILURE )` ends the run: a function either returns (`Run.ret`)
  or the process has exited (`Run.exit`), and callers propagate an exit.
-/

namespace PhatBenchmark

/-! ## Data model -/

/-- The enumeration `Representation_type` (source line 37), in declaration order. -/
inductive Representation_type
  | VECTOR_VECTOR
  | VECTOR_SET
  | SPARSE_PIVOT_COLUMN
  | FULL_PIVOT_COLUMN
  | BIT_TREE_PIVOT_COLUMN
  | VECTOR_LIST
  deriving DecidableEq, Repr

/-- The enumeration `Algorithm_type` (source line 38). -/
inductive Algorithm_type
  | STANDARD
  | TWIST
  | ROW
  | CHUNK
  deriving DecidableEq, Repr

/-- The enumeration `Ansatz_type` (source line 39). -/
inductive Ansatz_type
  | PRIMAL
  | DUAL
  deriving DecidableEq, Repr

namespace phat

/-- The representation classes of the PHAT library that `benchmark.cpp` includes
(lines 21-26); they are the first template argument of `compute`. -/
inductive Representation
  | vector_vector
  | vector_set
  | vector_list
  | sparse_pivot_column
  | full_pivot_column
  | bit_tree_pivot_column
  deriving DecidableEq, Repr

/-- The reduction classes of the PHAT library that `benchmark.cpp` includes
(lines 28-31); they are the second template argument of `compute`. -/
inductive Algorithm
  | twist_reduction
  | standard_reduction
  | row_reduction
  | chunk_reduction
  deriving DecidableEq, Repr

end phat

/-- A reading of the wall clock (`omp_get_wtime` returns a `double`; every finite
double is a rational number). No arithmetic is done on readings here. -/
abbrev Time := ℚ

/-- The calls that leave `benchmark.cpp`, and the entry into `benchmark`. -/
inductive Event
  /-- Entry into `benchmark( input_filename, use_binary, algorithm, representation, ansatz )`. -/
  | benchmark (input_filename : String) (use_binary : Bool) (algorithm : Algorithm_type)
      (representation : Representation_type) (ansatz : Ansatz_type)
  /-- Call `matrix.load_binary( input_filename )` on a `boundary_matrix< R >`. -/
  | load_binary (R : phat.Representation) (input_filename : String)
  /-- Call `matrix.load_ascii( input_filename )` on a `boundary_matrix< R >`. -/
  | load_ascii (R : phat.Representation) (input_filename : String)
  /-- Call `phat::compute_persistence_pairs< A >( pairs, matrix )`, matrix of representation `R`. -/
  | compute_persistence_pairs (A : phat.Algorithm) (R : phat.Representation)
  /-- Call `phat::compute_persistence_pairs_dualized< A >( pairs, matrix )`. -/
  | compute_persistence_pairs_dualized (A : phat.Algorithm) (R : phat.Representation)
  deriving DecidableEq, Repr

/-- The environment of the program: what the loader and the timer answer.
`load_binary n R f` is the result of the call `load_binary( f )` on a
`boundary_matrix< R >` when `n` loads were attempted before it (likewise
`load_ascii`); `omp_get_wtime n` is the clock reading of the `n`-th call
(counting from zero); `show_elapsed t1 t0` is the text that
`<< setiosflags( fixed ) << setiosflags( showpoint ) << setprecision( 1 ) << t1 - t0`
writes (floating point subtraction and formatting are not modelled). -/
structure World where
  load_binary : Nat → phat.Representation → String → Bool
  load_ascii : Nat → phat.Representation → String → Bool
  omp_get_wtime : Nat → Time
  show_elapsed : Time → Time → String

/-- The process state: text written to the two streams, the trace of calls,
and the number of loader and timer calls made so far. -/
structure Sys where
  cout : String
  cerr : String
  trace : List Event
  loads : Nat
  clock : Nat
  deriving DecidableEq, Repr

/-- The state in which `main` starts. -/
def Sys.start : Sys :=
  { cout := "", cerr := "", trace := [], loads := 0, clock := 0 }

/-- Result of running a function body: it returned with a value, or `exit` was
called with a status. -/
inductive Run (α : Type)
  | ret (a : α) (s : Sys)
  | exit (status : Int) (s : Sys)
  deriving DecidableEq, Repr

/-- The constant `EXIT_FAILURE` of `<cstdlib>`. -/
def EXIT_FAILURE : Int := 1

/-- The variables that `main` declares (lines 200-205) and hands by reference to
`parse_command_line`. -/
structure Config where
  use_binary : Bool
  representations : List Representation_type
  algorithms : List Algorithm_type
  ansaetze : List Ansatz_type
  input_filenames : List String
  deriving DecidableEq, Repr

/-! ## Usage text -/

/-- The text that `print_help` writes to `std::cerr` (lines 42-52);
`std::endl` is a newline. -/
def help_text : String :=
  "Usage: " ++ "benchmark " ++ "[options] input_filename_0 input_filename_1 ... input_filename_N" ++ "\n"
  ++ "\n"
  ++ "Options:" ++ "\n"
  ++ "\n"
  ++ "--ascii   --  use ascii file format" ++ "\n"
  ++ "--binary  --  use binary file format (default)" ++ "\n"
  ++ "--help    --  prints this screen" ++ "\n"
  ++ "--dualize   --  use only dualization approach" ++ "\n"
  ++ "--primal   --  use only primal approach" ++ "\n"
  ++ "--vector_vector, --vector_set, --vector_list, --full_pivot_column, --sparse_pivot_column, --bit_tree_pivot_column  --  use only a subset of representation data structures for boundary matrices" ++ "\n"
  ++ "--standard, --twist, --chunk, --row  --  use only a subset of reduction algorithms" ++ "\n"

/-- Source `print_help` (lines 41-53). -/
def print_help (s : Sys) : Sys :=
  { s with cerr := s.cerr ++ help_text }

/-- Source `print_help_and_exit` (lines 55-58). -/
def print_help_and_exit {α : Type} (s : Sys) : Run α :=
  .exit EXIT_FAILURE (print_help s)

/-! ## Command line parsing -/

/-- The test of line 68:
`argument.size() > 2 && argument[ 0 ] == '-' && argument[ 1 ] == '-'`
(`size` counts bytes, and the indices are byte positions). -/
def is_option (argument : String) : Bool :=
  decide (argument.utf8ByteSize > 2) && argument.get ⟨0⟩ == '-' && argument.get ⟨1⟩ == '-'

/-- Body of the loop of `parse_command_line` (lines 67-87) for one argument. -/
def parse_argument (argument : String) (c : Config) (s : Sys) : Run Config :=
  if is_option argument then
    if argument = "--ascii" then .ret { c with use_binary := false } s
    else if argument = "--binary" then .ret { c with use_binary := true } s
    else if argument = "--vector_vector" then
      .ret { c with representations := c.representations ++ [.VECTOR_VECTOR] } s
    else if argument = "--vector_set" then
      .ret { c with representations := c.representations ++ [.VECTOR_SET] } s
    else if argument = "--vector_list" then
      .ret { c with representations := c.representations ++ [.VECTOR_LIST] } s
    else if argument = "--full_pivot_column" then
      .ret { c with representations := c.representations ++ [.FULL_PIVOT_COLUMN] } s
    else if argument = "--bit_tree_pivot_column" then
      .ret { c with representations := c.representations ++ [.BIT_TREE_PIVOT_COLUMN] } s
    else if argument = "--sparse_pivot_column" then
      .ret { c with representations := c.representations ++ [.SPARSE_PIVOT_COLUMN] } s
    else if argument = "--standard" then .ret { c with algorithms := c.algorithms ++ [.STANDARD] } s
    else if argument = "--twist" then .ret { c with algorithms := c.algorithms ++ [.TWIST] } s
    else if argument = "--row" then .ret { c with algorithms := c.algorithms ++ [.ROW] } s
    else if argument = "--chunk" then .ret { c with algorithms := c.algorithms ++ [.CHUNK] } s
    else if argument = "--primal" then .ret { c with ansaetze := c.ansaetze ++ [.PRIMAL] } s
    else if argument = "--dual" then .ret { c with ansaetze := c.ansaetze ++ [.DUAL] } s
    else if argument = "--help" then print_help_and_exit s
    else print_help_and_exit s
  else
    .ret { c with input_filenames := c.input_filenames ++ [argument] } s

/-- The loop of lines 66-88 over `argv[ 1 ]`, ..., `argv[ argc - 1 ]`. -/
def parse_arguments : List String → Config → Sys → Run Config
  | [], c, s => .ret c s
  | argument :: rest, c, s =>
    match parse_argument argument c s with
    | .exit status s1 => .exit status s1
    | .ret c1 s1 => parse_arguments rest c1 s1

/-- The defaulting of lines 90-109: an empty selection receives every kind. -/
def fill_defaults (c : Config) : Config :=
  let c1 :=
    if c.representations.isEmpty = true then
      { c with representations := c.representations ++
          [.VECTOR_VECTOR, .VECTOR_SET, .VECTOR_LIST, .FULL_PIVOT_COLUMN,
           .BIT_TREE_PIVOT_COLUMN, .SPARSE_PIVOT_COLUMN] }
    else c
  let c2 :=
    if c1.algorithms.isEmpty = true then
      { c1 with algorithms := c1.algorithms ++ [.STANDARD, .TWIST, .ROW, .CHUNK] }
    else c1
  if c2.ansaetze.isEmpty = true then
    { c2 with ansaetze := c2.ansaetze ++ [.PRIMAL, .DUAL] }
  else c2

/-- Source `parse_command_line` (lines 60-110); `args` is `argv` without
`argv[ 0 ]`, so `argc` is `args.length + 1`. -/
def parse_command_line (args : List String) (c : Config) (s : Sys) : Run Config :=
  if args.length + 1 < 2 then print_help_and_exit s
  else
    match parse_arguments args c s with
    | .exit status s1 => .exit status s1
    | .ret c1 s1 => .ret (fill_defaults c1) s1

/-! ## One benchmark run -/

/-- Source `compute< Representation, Algorithm >` (lines 112-135). -/
def compute (w : World) (R : phat.Representation) (A : phat.Algorithm)
    (input_filename : String) (use_binary : Bool) (ansatz : Ansatz_type) (s : Sys) : Run Unit :=
  let read_successful :=
    if use_binary then w.load_binary s.loads R input_filename
    else w.load_ascii s.loads R input_filename
  let s1 : Sys :=
    { s with
      trace := s.trace ++
        [if use_binary then Event.load_binary R input_filename
         else Event.load_ascii R input_filename]
      loads := s.loads + 1 }
  if !read_successful then
    print_help_and_exit
      { s1 with cerr := s1.cerr ++ "\n" ++ " Error opening file " ++ input_filename ++ "\n" }
  else
    let pairs_timer := w.omp_get_wtime s1.clock
    let s2 : Sys := { s1 with clock := s1.clock + 1 }
    let s3 : Sys :=
      if ansatz = .PRIMAL then
        { s2 with
          cout := s2.cout ++ " primal"
          trace := s2.trace ++ [Event.compute_persistence_pairs A R] }
      else
        { s2 with
          cout := s2.cout ++ " dual"
          trace := s2.trace ++ [Event.compute_persistence_pairs_dualized A R] }
    .ret ()
      { s3 with
        cout := s3.cout ++ " " ++ w.show_elapsed (w.omp_get_wtime s3.clock) pairs_timer
                  ++ "s" ++ "\n"
        clock := s3.clock + 1 }

/-- Write `text` to `std::cout`. -/
def Sys.print (s : Sys) (text : String) : Sys :=
  { s with cout := s.cout ++ text }

/-- Source `benchmark` (lines 138-196): the switch over the representation and,
inside each case, over the algorithm. -/
def benchmark (w : World) (input_filename : String) (use_binary : Bool)
    (algorithm : Algorithm_type) (representation : Representation_type)
    (ansatz : Ansatz_type) (s : Sys) : Run Unit :=
  let s0 : Sys :=
    { s with
      trace := s.trace ++ [Event.benchmark input_filename use_binary algorithm representation ansatz] }
  let s1 := s0.print input_filename
  match representation with
  | .VECTOR_VECTOR =>
    let s2 := s1.print " vector_vector"
    match algorithm with
    | .STANDARD => compute w .vector_vector .standard_reduction input_filename use_binary ansatz (s2.print " standard_reduction")
    | .TWIST => compute w .vector_vector .twist_reduction input_filename use_binary ansatz (s2.print " twist_reduction")
    | .ROW => compute w .vector_vector .row_reduction input_filename use_binary ansatz (s2.print " row_reduction")
    | .CHUNK => compute w .vector_vector .chunk_reduction input_filename use_binary ansatz (s2.print " chunk_reduction")
  | .VECTOR_SET =>
    let s2 := s1.print " vector_set"
    match algorithm with
    | .STANDARD => compute w .vector_set .standard_reduction input_filename use_binary ansatz (s2.print " standard_reduction")
    | .TWIST => compute w .vector_set .twist_reduction input_filename use_binary ansatz (s2.print " twist_reduction")
    | .ROW => compute w .vector_set .row_reduction input_filename use_binary ansatz (s2.print " row_reduction")
    | .CHUNK => compute w .vector_set .chunk_reduction input_filename use_binary ansatz (s2.print " chunk_reduction")
  | .VECTOR_LIST =>
    let s2 := s1.print " vector_list"
    match algorithm with
    | .STANDARD => compute w .vector_list .standard_reduction input_filename use_binary ansatz (s2.print " standard_reduction")
    | .TWIST => compute w .vector_list .twist_reduction input_filename use_binary ansatz (s2.print " twist_reduction")
    | .ROW => compute w .vector_list .row_reduction input_filename use_binary ansatz (s2.print " row_reduction")
    | .CHUNK => compute w .vector_list .chunk_reduction input_filename use_binary ansatz (s2.print " chunk_reduction")
  | .FULL_PIVOT_COLUMN =>
    let s2 := s1.print " full_pivot_column"
    match algorithm with
    | .STANDARD => compute w .full_pivot_column .standard_reduction input_filename use_binary ansatz (s2.print " standard_reduction")
    | .TWIST => compute w .full_pivot_column .twist_reduction input_filename use_binary ansatz (s2.print " twist_reduction")
    | .ROW => compute w .full_pivot_column .row_reduction input_filename use_binary ansatz (s2.print " row_reduction")
    | .CHUNK => compute w .full_pivot_column .chunk_reduction input_filename use_binary ansatz (s2.print " chunk_reduction")
  | .BIT_TREE_PIVOT_COLUMN =>
    let s2 := s1.print " bit_tree_pivot_column"
    match algorithm with
    | .STANDARD => compute w .bit_tree_pivot_column .standard_reduction input_filename use_binary ansatz (s2.print " standard_reduction")
    | .TWIST => compute w .bit_tree_pivot_column .twist_reduction input_filename use_binary ansatz (s2.print " twist_reduction")
    | .ROW => compute w .bit_tree_pivot_column .row_reduction input_filename use_binary ansatz (s2.print " row_reduction")
    | .CHUNK => compute w .bit_tree_pivot_column .chunk_reduction input_filename use_binary ansatz (s2.print " chunk_reduction")
  | .SPARSE_PIVOT_COLUMN =>
    let s2 := s1.print " sparse_pivot_column"
    match algorithm with
    | .STANDARD => compute w .sparse_pivot_column .standard_reduction input_filename use_binary ansatz (s2.print " standard_reduction")
    | .TWIST => compute w .sparse_pivot_column .twist_reduction input_filename use_binary ansatz (s2.print " twist_reduction")
    | .ROW => compute w .sparse_pivot_column .row_reduction input_filename use_binary ansatz (s2.print " row_reduction")
    | .CHUNK => compute w .sparse_pivot_column .chunk_reduction input_filename use_binary ansatz (s2.print " chunk_reduction")

/-! ## The sweep -/

/-- A `for` loop over the elements of a vector, in index order, whose body may
end the process: an exit inside the body ends the loop at once. -/
def for_each {α : Type} (body : α → Sys → Run Unit) : List α → Sys → Run Unit
  | [], s => .ret () s
  | x :: rest, s =>
    match body x s with
    | .exit status s1 => .exit status s1
    | .ret _ s1 => for_each body rest s1

/-- The four nested loops of `main` (lines 209-221). -/
def sweep (w : World) (c : Config) (s : Sys) : Run Unit :=
  for_each (fun input_filename =>
    for_each (fun algorithm =>
      for_each (fun representation =>
        for_each (fun ansatz =>
          benchmark w input_filename c.use_binary algorithm representation ansatz)
          c.ansaetze)
        c.representations)
      c.algorithms)
    c.input_filenames s

/-- The values of the variables of `main` before parsing (lines 200-205). -/
def Config.start : Config :=
  { use_binary := true, representations := [], algorithms := [], ansaetze := [],
    input_filenames := [] }

/-- Source `main` (lines 198-222): the exit status of the process and its final
state. Falling off the end of `main` is `return 0`. -/
def main (w : World) (args : List String) : Int × Sys :=
  match parse_command_line args Config.start Sys.start with
  | .exit status s => (status, s)
  | .ret c s =>
    match sweep w c s with
    | .exit status s1 => (status, s1)
    | .ret _ s1 => (0, s1)

/-! ## Vocabulary of the specification

The definitions below do not come from the source: they state, in the words of
the specification, what the theorems compare the program with. -/

/-- A token that starts with a double dash. -/
def starts_with_double_dash (token : String) : Bool :=
  List.isPrefixOf ['-', '-'] token.data

/-- The representation kind that a representation selector flag names. -/
def representation_flag (token : String) : Option Representation_type :=
  if token = "--vector_vector" then some .VECTOR_VECTOR
  else if token = "--vector_set" then some .VECTOR_SET
  else if token = "--vector_list" then some .VECTOR_LIST
  else if token = "--full_pivot_column" then some .FULL_PIVOT_COLUMN
  else if token = "--bit_tree_pivot_column" then some .BIT_TREE_PIVOT_COLUMN
  else if token = "--sparse_pivot_column" then some .SPARSE_PIVOT_COLUMN
  else none

/-- The algorithm kind that an algorithm selector flag names. -/
def algorithm_flag (token : String) : Option Algorithm_type :=
  if token = "--standard" then some .STANDARD
  else if token = "--twist" then some .TWIST
  else if token = "--row" then some .ROW
  else if token = "--chunk" then some .CHUNK
  else none

/-- The ansatz kind that an ansatz flag names. -/
def ansatz_flag (token : String) : Option Ansatz_type :=
  if token = "--primal" then some .PRIMAL
  else if token = "--dual" then some .DUAL
  else none

/-- The file format that a format flag selects: `true` is binary. -/
def format_flag (token : String) : Option Bool :=
  if token = "--ascii" then some false
  else if token = "--binary" then some true
  else none

/-- The 14 recognized flags other than `--help`. -/
def recognized_flags : List String :=
  ["--ascii", "--binary", "--primal", "--dual",
   "--vector_vector", "--vector_set", "--vector_list", "--full_pivot_column",
   "--bit_tree_pivot_column", "--sparse_pivot_column",
   "--standard", "--twist", "--row", "--chunk"]

/-- Canonical default order of the representations:
VectorVector, VectorSet, VectorList, FullPivotColumn, BitTreePivotColumn, SparsePivotColumn. -/
def default_representations : List Representation_type :=
  [.VECTOR_VECTOR, .VECTOR_SET, .VECTOR_LIST, .FULL_PIVOT_COLUMN, .BIT_TREE_PIVOT_COLUMN,
   .SPARSE_PIVOT_COLUMN]

/-- Canonical default order of the algorithms: Standard, Twist, Row, Chunk. -/
def default_algorithms : List Algorithm_type := [.STANDARD, .TWIST, .ROW, .CHUNK]

/-- Canonical default order of the ansaetze: Primal, Dual. -/
def default_ansaetze : List Ansatz_type := [.PRIMAL, .DUAL]

/-- The selection that a category ends with: the kinds its flags name, or the
defaults when no flag of the category was given. -/
def selection {α : Type} (named : List α) (defaults : List α) : List α :=
  if named.isEmpty then defaults else named

/-- The format in force after the tokens: the last format flag wins, and
without a format flag the earlier value stays. -/
def format_after (args : List String) (use_binary : Bool) : Bool :=
  ((args.filterMap format_flag).getLast?).getD use_binary

/-- The matrix type of a representation kind. -/
def matrix_type : Representation_type → phat.Representation
  | .VECTOR_VECTOR => .vector_vector
  | .VECTOR_SET => .vector_set
  | .VECTOR_LIST => .vector_list
  | .FULL_PIVOT_COLUMN => .full_pivot_column
  | .BIT_TREE_PIVOT_COLUMN => .bit_tree_pivot_column
  | .SPARSE_PIVOT_COLUMN => .sparse_pivot_column

/-- The reduction procedure of an algorithm kind. -/
def reduction_procedure : Algorithm_type → phat.Algorithm
  | .STANDARD => .standard_reduction
  | .TWIST => .twist_reduction
  | .ROW => .row_reduction
  | .CHUNK => .chunk_reduction

/-- The label of a representation kind in a result line. -/
def representation_label : Representation_type → String
  | .VECTOR_VECTOR => "vector_vector"
  | .VECTOR_SET => "vector_set"
  | .VECTOR_LIST => "vector_list"
  | .FULL_PIVOT_COLUMN => "full_pivot_column"
  | .BIT_TREE_PIVOT_COLUMN => "bit_tree_pivot_column"
  | .SPARSE_PIVOT_COLUMN => "sparse_pivot_column"

/-- The label of an algorithm kind in a result line. -/
def algorithm_label : Algorithm_type → String
  | .STANDARD => "standard_reduction"
  | .TWIST => "twist_reduction"
  | .ROW => "row_reduction"
  | .CHUNK => "chunk_reduction"

/-- The label of an ansatz kind in a result line. -/
def ansatz_label : Ansatz_type → String
  | .PRIMAL => "primal"
  | .DUAL => "dual"

/-- One combination of the sweep: (path, algorithm, representation, ansatz). -/
abbrev Tuple := String × Algorithm_type × Representation_type × Ansatz_type

/-- The nested enumeration of the strategy space: input paths outermost, then
algorithms, then representations, then ansaetze innermost. -/
def enumeration (c : Config) : List Tuple :=
  c.input_filenames.flatMap fun path =>
    c.algorithms.flatMap fun algorithm =>
      c.representations.flatMap fun representation =>
        c.ansaetze.map fun ansatz => (path, algorithm, representation, ansatz)

/-- The invocations of `benchmark` recorded in a trace, in order. -/
def invocations (trace : List Event) : List Tuple :=
  trace.filterMap fun e =>
    match e with
    | .benchmark input_filename _ algorithm representation ansatz =>
      some (input_filename, algorithm, representation, ansatz)
    | _ => none

/-- A load attempt: the matrix type, the file and whether the binary loader is used. -/
abbrev LoadCall := phat.Representation × String × Bool

/-- The load attempts recorded in a trace, in order. -/
def load_calls (trace : List Event) : List LoadCall :=
  trace.filterMap fun e =>
    match e with
    | .load_binary R input_filename => some (R, input_filename, true)
    | .load_ascii R input_filename => some (R, input_filename, false)
    | _ => none

/-- A reduction: the reduction procedure, the matrix type and whether the
dualized variant is called. -/
abbrev ReductionCall := phat.Algorithm × phat.Representation × Bool

/-- The reductions recorded in a trace, in order. -/
def reduction_calls (trace : List Event) : List ReductionCall :=
  trace.filterMap fun e =>
    match e with
    | .compute_persistence_pairs A R => some (A, R, false)
    | .compute_persistence_pairs_dualized A R => some (A, R, true)
    | _ => none

/-- The load attempt that a tuple asks for. -/
def load_of (use_binary : Bool) (t : Tuple) : LoadCall :=
  (matrix_type t.2.2.1, t.1, use_binary)

/-- The reduction that a tuple asks for: direct for Primal, dualized for Dual. -/
def reduction_of (t : Tuple) : ReductionCall :=
  (reduction_procedure t.2.1, matrix_type t.2.2.1, decide (t.2.2.2 = .DUAL))

/-- What the loader answers to the load of tuple `t` when `n` loads were
attempted before it. -/
def load_result (w : World) (use_binary : Bool) (n : Nat) (t : Tuple) : Bool :=
  if use_binary then w.load_binary n (matrix_type t.2.2.1) t.1
  else w.load_ascii n (matrix_type t.2.2.1) t.1

/-- The result line of a completed run whose timer readings are number `clock`
and `clock + 1`: `<path> <representation> <algorithm> <ansatz> <elapsed>s`. -/
def result_line (w : World) (clock : Nat) (t : Tuple) : String :=
  t.1 ++ " " ++ representation_label t.2.2.1 ++ " " ++ algorithm_label t.2.1 ++ " "
    ++ ansatz_label t.2.2.2 ++ " "
    ++ w.show_elapsed (w.omp_get_wtime (clock + 1)) (w.omp_get_wtime clock) ++ "s" ++ "\n"

/-- The result lines of consecutive completed runs, the first of which reads the
timer at number `clock`. -/
def result_lines (w : World) : Nat → List Tuple → List String
  | _, [] => []
  | clock, t :: rest => result_line w clock t :: result_lines w (clock + 2) rest

/-- Concatenation of pieces of text. -/
def concat : List String → String
  | [] => ""
  | x :: rest => x ++ concat rest

/-- The start of a result line, up to the algorithm label:
`<path> <representation> <algorithm>`. -/
def line_start (t : Tuple) : String :=
  t.1 ++ " " ++ representation_label t.2.2.1 ++ " " ++ algorithm_label t.2.1

/-- The diagnostic of a failed load followed by the usage text. -/
def load_failure_text (input_filename : String) : String :=
  "\n" ++ " Error opening file " ++ input_filename ++ "\n" ++ help_text

/-- The world in which every load succeeds and the timer is that of `w`. -/
def World.all_loads_succeed (w : World) : World :=
  { w with load_binary := fun _ _ _ => true, load_ascii := fun _ _ _ => true }

/-- A world for examples: every load succeeds, the `n`-th timer reading is `n`
and every elapsed time prints as `0.0`. -/
def World.example_ok : World :=
  { load_binary := fun _ _ _ => true
    load_ascii := fun _ _ _ => true
    omp_get_wtime := fun n => n
    show_elapsed := fun _ _ => "0.0" }

/-- A world for examples: the first `k` loads succeed and every later one fails. -/
def World.example_failing (k : Nat) : World :=
  { World.example_ok with
    load_binary := fun n _ _ => decide (n < k)
    load_ascii := fun n _ _ => decide (n < k) }

/-- The configuration after the loop of `parse_command_line` has consumed `args`
starting from `c`, when no token is rejected: each selection grows by the kinds
that its flags name, in order, and the paths by the tokens that are not options. -/
def scanned (args : List String) (c : Config) : Config :=
  { use_binary := format_after args c.use_binary
    representations := c.representations ++ args.filterMap representation_flag
    algorithms := c.algorithms ++ args.filterMap algorithm_flag
    ansaetze := c.ansaetze ++ args.filterMap ansatz_flag
    input_filenames := c.input_filenames ++ args.filter (fun a => !is_option a) }

/-- The body of the innermost loop of `main` (line 217) for the tuple `t`. -/
def run_tuple (w : World) (use_binary : Bool) (t : Tuple) (s : Sys) : Run Unit :=
  benchmark w t.1 use_binary t.2.1 t.2.2.1 t.2.2.2 s

/-- The load event that a tuple asks for. -/
def load_event (use_binary : Bool) (t : Tuple) : Event :=
  if use_binary then Event.load_binary (matrix_type t.2.2.1) t.1
  else Event.load_ascii (matrix_type t.2.2.1) t.1

/-- The reduction event that a tuple asks for. -/
def reduction_event (t : Tuple) : Event :=
  if t.2.2.2 = .PRIMAL then
    Event.compute_persistence_pairs (reduction_procedure t.2.1) (matrix_type t.2.2.1)
  else Event.compute_persistence_pairs_dualized (reduction_procedure t.2.1) (matrix_type t.2.2.1)

/-- The events of a completed run of the tuple `t`. -/
def run_events (use_binary : Bool) (t : Tuple) : List Event :=
  [Event.benchmark t.1 use_binary t.2.1 t.2.2.1 t.2.2.2, load_event use_binary t,
   reduction_event t]

/-- The state after the tuples `ts` have been run to completion from `s`. -/
def after_runs (w : World) (use_binary : Bool) (ts : List Tuple) (s : Sys) : Sys :=
  { cout := s.cout ++ concat (result_lines w s.clock ts)
    cerr := s.cerr
    trace := s.trace ++ ts.flatMap (run_events use_binary)
    loads := s.loads + ts.length
    clock := s.clock + 2 * ts.length }

/-- The state in which the process exits when the load of the tuple `t` fails in
the state `s`. -/
def after_failed_load (use_binary : Bool) (t : Tuple) (s : Sys) : Sys :=
  { cout := s.cout ++ line_start t
    cerr := s.cerr ++ load_failure_text t.1
    trace := s.trace ++ [Event.benchmark t.1 use_binary t.2.1 t.2.2.1 t.2.2.2,
                         load_event use_binary t]
    loads := s.loads + 1
    clock := s.clock }

/-- The state in which a function body ended, by return or by exit. -/
def Run.state {α : Type} : Run α → Sys
  | .ret _ s => s
  | .exit _ s => s

/-- Every load succeeds in the world `w`, whatever is loaded and whenever. -/
def World.every_load_succeeds (w : World) : Prop :=
  ∀ (n : Nat) (R : phat.Representation) (f : String),
    w.load_binary n R f = true ∧ w.load_ascii n R f = true

/-- The number of reductions that a run of the program performed. -/
def run_count (result : Int × Sys) : Nat :=
  (reduction_calls result.2.trace).length

/-- The result line of a tuple whose elapsed time prints as `elapsed`: five fields
separated by single spaces, the last one followed by `s`, then a newline. -/
def line_with (t : Tuple) (elapsed : String) : String :=
  t.1 ++ " " ++ representation_label t.2.2.1 ++ " " ++ algorithm_label t.2.1 ++ " "
    ++ ansatz_label t.2.2.2 ++ " " ++ elapsed ++ "s" ++ "\n"

/-- The text that prints for the elapsed time of the run whose timer readings are
number `clock` and `clock + 1`. -/
def elapsed_text (w : World) (clock : Nat) : String :=
  w.show_elapsed (w.omp_get_wtime (clock + 1)) (w.omp_get_wtime clock)

/-- The tuples whose runs were completed, read off the final trace: the
invocations of `benchmark` that were followed by a reduction. -/
def completed_runs (result : Int × Sys) : List Tuple :=
  (invocations result.2.trace).take (run_count result)

/-- A world for examples: the loader of `World.example_failing k` with a slower
clock, whose elapsed times print as `12.5`. -/
def World.example_slow (k : Nat) : World :=
  { World.example_failing k with
    omp_get_wtime := fun n => 10 * n
    show_elapsed := fun _ _ => "12.5" }

/-! ## Lemmas on parsing -/

theorem get_zero_cons (x : Char) (r : List Char) : String.get ⟨x :: r⟩ ⟨0⟩ = x := by
  simp [String.get, String.utf8GetAux]

theorem get_one_dash_cons (y : Char) (r : List Char) :
    String.get ⟨'-' :: y :: r⟩ ⟨1⟩ = y := by
  have h : ((0 : String.Pos) + '-') = ⟨1⟩ := by decide
  have h0 : ¬ ((0 : String.Pos) = ⟨1⟩) := by decide
  simp [String.get, String.utf8GetAux, h, h0]

/-- The test of line 68 holds exactly for the tokens that start with two dashes
and have at least one more character. -/
theorem is_option_iff (a : String) :
    is_option a = true ↔ ∃ c cs, a.data = '-' :: '-' :: c :: cs := by
  rcases a with ⟨l⟩
  have h2 : ('-' : Char).utf8Size = 1 := by decide
  constructor
  · intro h
    simp only [is_option, Bool.and_eq_true, decide_eq_true_eq, beq_iff_eq] at h
    obtain ⟨⟨hs, h0⟩, h1⟩ := h
    cases l with
    | nil => exact absurd hs (by decide)
    | cons x r =>
      rw [get_zero_cons] at h0
      subst h0
      cases r with
      | nil => exact absurd hs (by decide)
      | cons y r =>
        rw [get_one_dash_cons] at h1
        subst h1
        cases r with
        | nil => exact absurd hs (by decide)
        | cons z r => exact ⟨z, r, rfl⟩
  · rintro ⟨c, cs, h⟩
    simp only at h
    subst h
    have := c.utf8Size_pos
    simp only [is_option, Bool.and_eq_true, decide_eq_true_eq, beq_iff_eq, get_zero_cons,
      get_one_dash_cons, String.utf8ByteSize_mk, String.utf8Len_cons, h2]
    refine ⟨⟨?_, trivial⟩, trivial⟩
    omega

/-- In terms of the vocabulary of the specification: the parser takes a token for
a flag exactly when it starts with a double dash and is not the bare `--`. -/
theorem is_option_eq (a : String) :
    is_option a = (starts_with_double_dash a && decide (a ≠ "--")) := by
  rw [Bool.eq_iff_iff, is_option_iff]
  rcases a with ⟨l⟩
  simp only [starts_with_double_dash, Bool.and_eq_true, decide_eq_true_eq, ne_eq]
  constructor
  · rintro ⟨c, cs, h⟩
    subst h
    refine ⟨by simp [List.isPrefixOf], ?_⟩
    intro h
    exact absurd (congrArg String.data h) (by simp)
  · rintro ⟨h1, h2⟩
    match l, h1, h2 with
    | [], h1, _ => simp [List.isPrefixOf] at h1
    | [x], h1, _ => simp [List.isPrefixOf] at h1
    | [x, y], h1, h2 =>
      simp [List.isPrefixOf] at h1
      obtain ⟨hx, hy⟩ := h1
      subst hx hy
      exact absurd rfl h2
    | x :: y :: z :: r, h1, _ =>
      simp [List.isPrefixOf] at h1
      obtain ⟨hx, hy⟩ := h1
      subst hx hy
      exact ⟨z, r, rfl⟩

theorem flag_is_option {a : String} (h : a ∈ recognized_flags) : is_option a = true := by
  simp only [recognized_flags, List.mem_cons, List.mem_singleton, List.not_mem_nil, or_false] at h
  rcases h with h | h | h | h | h | h | h | h | h | h | h | h | h | h <;> subst h <;> decide

theorem parse_argument_path {a : String} (c : Config) (s : Sys) (h : is_option a = false) :
    parse_argument a c s = .ret { c with input_filenames := c.input_filenames ++ [a] } s := by
  simp [parse_argument, h]

theorem parse_argument_bad {a : String} (c : Config) (s : Sys) (h : is_option a = true)
    (h2 : a ∉ recognized_flags) :
    parse_argument a c s = .exit EXIT_FAILURE (print_help s) := by
  simp only [recognized_flags, List.mem_cons, List.mem_singleton, List.not_mem_nil, or_false,
    not_or] at h2
  simp [parse_argument, h, h2, print_help_and_exit]

theorem parse_argument_flag {a : String} (c : Config) (s : Sys) (h : a ∈ recognized_flags) :
    parse_argument a c s =
      .ret { use_binary := (format_flag a).getD c.use_binary
             representations := c.representations ++ (representation_flag a).toList
             algorithms := c.algorithms ++ (algorithm_flag a).toList
             ansaetze := c.ansaetze ++ (ansatz_flag a).toList
             input_filenames := c.input_filenames } s := by
  simp only [recognized_flags, List.mem_cons, List.mem_singleton, List.not_mem_nil, or_false] at h
  rcases h with h | h | h | h | h | h | h | h | h | h | h | h | h | h <;> subst h <;>
    simp [parse_argument, format_flag, representation_flag, algorithm_flag, ansatz_flag] <;>
    decide

/-- A token that the parser does not take for a flag names no kind and no format. -/
theorem no_flag_of_not_option {a : String} (h : is_option a = false) :
    format_flag a = none ∧ representation_flag a = none ∧ algorithm_flag a = none ∧
      ansatz_flag a = none := by
  have key : ∀ b : String, is_option b = true → a ≠ b := by
    intro b hb hab
    rw [hab, hb] at h
    exact absurd h (by decide)
  have h1 := key "--ascii" (by decide)
  have h2 := key "--binary" (by decide)
  have h3 := key "--vector_vector" (by decide)
  have h4 := key "--vector_set" (by decide)
  have h5 := key "--vector_list" (by decide)
  have h6 := key "--full_pivot_column" (by decide)
  have h7 := key "--bit_tree_pivot_column" (by decide)
  have h8 := key "--sparse_pivot_column" (by decide)
  have h9 := key "--standard" (by decide)
  have h10 := key "--twist" (by decide)
  have h11 := key "--row" (by decide)
  have h12 := key "--chunk" (by decide)
  have h13 := key "--primal" (by decide)
  have h14 := key "--dual" (by decide)
  simp [format_flag, representation_flag, algorithm_flag, ansatz_flag, *]

theorem format_after_cons (a : String) (rest : List String) (b : Bool) :
    format_after (a :: rest) b = format_after rest ((format_flag a).getD b) := by
  unfold format_after
  cases h : format_flag a with
  | none => simp [List.filterMap_cons, h]
  | some v => simp [List.filterMap_cons, h, List.getLast?_cons]

/-- The scan of a list of tokens none of which is rejected. -/
theorem parse_arguments_ok (args : List String) :
    ∀ (c : Config) (s : Sys),
      (∀ a ∈ args, is_option a = true → a ∈ recognized_flags) →
      parse_arguments args c s = .ret (scanned args c) s := by
  induction args with
  | nil =>
    intro c s _
    simp [parse_arguments, scanned, format_after]
  | cons a rest ih =>
    intro c s h
    have hrest : ∀ b ∈ rest, is_option b = true → b ∈ recognized_flags :=
      fun b hb => h b (List.mem_cons_of_mem _ hb)
    cases ha : is_option a with
    | false =>
      obtain ⟨f1, f2, f3, f4⟩ := no_flag_of_not_option ha
      rw [parse_arguments, parse_argument_path c s ha]
      simp only
      rw [ih _ s hrest]
      simp [scanned, format_after_cons, List.filterMap_cons, List.filter_cons, f1, f2, f3, f4, ha]
    | true =>
      have hm := h a (List.mem_cons_self _ _) ha
      rw [parse_arguments, parse_argument_flag c s hm]
      simp only
      rw [ih _ s hrest]
      simp only [scanned, format_after_cons, List.filterMap_cons, List.filter_cons, ha]
      cases format_flag a <;> cases representation_flag a <;> cases algorithm_flag a <;>
        cases ansatz_flag a <;> simp

/-- The scan of a list of tokens one of which is rejected. -/
theorem parse_arguments_bad (args : List String) :
    ∀ (c : Config) (s : Sys),
      (∃ a ∈ args, is_option a = true ∧ a ∉ recognized_flags) →
      parse_arguments args c s = .exit EXIT_FAILURE (print_help s) := by
  induction args with
  | nil =>
    intro c s h
    obtain ⟨a, ha, _⟩ := h
    simp at ha
  | cons a rest ih =>
    intro c s h
    cases ha : is_option a with
    | false =>
      rw [parse_arguments, parse_argument_path c s ha]
      simp only
      apply ih
      obtain ⟨b, hb, hb1, hb2⟩ := h
      rcases List.mem_cons.mp hb with rfl | hb'
      · rw [ha] at hb1
        exact absurd hb1 (by decide)
      · exact ⟨b, hb', hb1, hb2⟩
    | true =>
      by_cases hm : a ∈ recognized_flags
      · rw [parse_arguments, parse_argument_flag c s hm]
        simp only
        apply ih
        obtain ⟨b, hb, hb1, hb2⟩ := h
        rcases List.mem_cons.mp hb with rfl | hb'
        · exact absurd hm hb2
        · exact ⟨b, hb', hb1, hb2⟩
      · rw [parse_arguments, parse_argument_bad c s ha hm]

/-- Parsing a non-empty list of tokens none of which is rejected. -/
theorem parse_command_line_ok (args : List String) (c : Config) (s : Sys)
    (hne : args ≠ []) (h : ∀ a ∈ args, is_option a = true → a ∈ recognized_flags) :
    parse_command_line args c s = .ret (fill_defaults (scanned args c)) s := by
  have hlen : ¬ (args.length + 1 < 2) := by
    cases args with
    | nil => exact absurd rfl hne
    | cons a r => simp
  simp [parse_command_line, hlen, parse_arguments_ok args c s h]

/-- Parsing the empty list, or a list with a token that is taken for a flag and
is not recognized. -/
theorem parse_command_line_bad (args : List String) (c : Config) (s : Sys)
    (h : args = [] ∨ ∃ a ∈ args, is_option a = true ∧ a ∉ recognized_flags) :
    parse_command_line args c s = .exit EXIT_FAILURE (print_help s) := by
  rcases h with h | h
  · subst h
    simp [parse_command_line, print_help_and_exit]
  · have hlen : ¬ (args.length + 1 < 2) := by
      obtain ⟨a, ha, _⟩ := h
      cases args with
      | nil => simp at ha
      | cons a r => simp
    simp [parse_command_line, hlen, parse_arguments_bad args c s h]

/-- Parsing either succeeds with the scanned and defaulted configuration, leaving
the process state alone, or ends in the usage error. -/
theorem parse_command_line_cases (args : List String) (c : Config) (s : Sys) :
    (args ≠ [] ∧ (∀ a ∈ args, is_option a = true → a ∈ recognized_flags) ∧
        parse_command_line args c s = .ret (fill_defaults (scanned args c)) s) ∨
    ((args = [] ∨ ∃ a ∈ args, is_option a = true ∧ a ∉ recognized_flags) ∧
        parse_command_line args c s = .exit EXIT_FAILURE (print_help s)) := by
  by_cases hne : args = []
  · exact Or.inr ⟨Or.inl hne, parse_command_line_bad args c s (Or.inl hne)⟩
  · by_cases h : ∀ a ∈ args, is_option a = true → a ∈ recognized_flags
    · exact Or.inl ⟨hne, h, parse_command_line_ok args c s hne h⟩
    · have h2 : ∃ a ∈ args, is_option a = true ∧ a ∉ recognized_flags := by
        push_neg at h
        exact h
      exact Or.inr ⟨Or.inr h2, parse_command_line_bad args c s (Or.inr h2)⟩

/-! ## Lemmas on the dispatch and the sweep -/

/-- Every cell of the switch of `benchmark` writes the path and the two labels of
its own kinds and calls `compute` instantiated with the classes of those kinds. -/
theorem benchmark_dispatch (w : World) (f : String) (b : Bool) (a : Algorithm_type)
    (r : Representation_type) (z : Ansatz_type) (s : Sys) :
    benchmark w f b a r z s =
      compute w (matrix_type r) (reduction_procedure a) f b z
        { s with
          cout := s.cout ++ line_start (f, a, r, z)
          trace := s.trace ++ [Event.benchmark f b a r z] } := by
  cases r <;> cases a <;>
    simp [benchmark, Sys.print, line_start, matrix_type, reduction_procedure,
      representation_label, algorithm_label, String.append_assoc]

theorem run_tuple_ok (w : World) (b : Bool) (t : Tuple) (s : Sys)
    (h : load_result w b s.loads t = true) :
    run_tuple w b t s = .ret () (after_runs w b [t] s) := by
  obtain ⟨f, a, r, z⟩ := t
  simp only [load_result] at h
  rw [run_tuple, benchmark_dispatch]
  cases z <;>
    simp [compute, h, after_runs, concat, result_lines, result_line, line_start, run_events,
      load_event, reduction_event, ansatz_label, String.append_assoc]

theorem run_tuple_failed (w : World) (b : Bool) (t : Tuple) (s : Sys)
    (h : load_result w b s.loads t = false) :
    run_tuple w b t s = .exit EXIT_FAILURE (after_failed_load b t s) := by
  obtain ⟨f, a, r, z⟩ := t
  simp only [load_result] at h
  rw [run_tuple, benchmark_dispatch]
  simp [compute, h, after_failed_load, load_event, print_help_and_exit, print_help,
    load_failure_text, String.append_assoc]

theorem for_each_append {α : Type} (body : α → Sys → Run Unit) (xs ys : List α) :
    ∀ s : Sys, for_each body (xs ++ ys) s =
      match for_each body xs s with
      | .exit status s1 => .exit status s1
      | .ret _ s1 => for_each body ys s1 := by
  induction xs with
  | nil => intro s; simp [for_each]
  | cons x rest ih =>
    intro s
    simp only [List.cons_append, for_each]
    cases body x s with
    | exit status s1 => rfl
    | ret u s1 => exact ih s1

theorem for_each_flatMap {α β : Type} (body : β → Sys → Run Unit) (f : α → List β)
    (xs : List α) :
    ∀ s : Sys, for_each body (xs.flatMap f) s = for_each (fun x => for_each body (f x)) xs s := by
  induction xs with
  | nil => intro s; simp [for_each]
  | cons x rest ih =>
    intro s
    rw [List.flatMap_cons, for_each_append, for_each]
    cases for_each body (f x) s with
    | exit status s1 => rfl
    | ret u s1 => exact ih s1

theorem for_each_map {α β : Type} (body : β → Sys → Run Unit) (g : α → β) (xs : List α) :
    ∀ s : Sys, for_each body (xs.map g) s = for_each (fun x => body (g x)) xs s := by
  induction xs with
  | nil => intro s; simp [for_each]
  | cons x rest ih =>
    intro s
    simp only [List.map_cons, for_each]
    cases body (g x) s with
    | exit status s1 => rfl
    | ret u s1 => exact ih s1

/-- The four nested loops of `main` run the tuples of the enumeration one after
the other. -/
theorem sweep_eq (w : World) (c : Config) (s : Sys) :
    sweep w c s = for_each (run_tuple w c.use_binary) (enumeration c) s := by
  have h1 : ∀ {α β : Type} (body : β → Sys → Run Unit) (f : α → List β) (xs : List α),
      for_each body (xs.flatMap f) = for_each (fun x => for_each body (f x)) xs :=
    fun body f xs => funext (for_each_flatMap body f xs)
  have h2 : ∀ {α β : Type} (body : β → Sys → Run Unit) (g : α → β) (xs : List α),
      for_each body (xs.map g) = for_each (fun x => body (g x)) xs :=
    fun body g xs => funext (for_each_map body g xs)
  simp only [sweep, enumeration, h1, h2]
  rfl

theorem concat_append (xs ys : List String) : concat (xs ++ ys) = concat xs ++ concat ys := by
  induction xs with
  | nil => simp [concat]
  | cons x rest ih => simp [concat, ih, String.append_assoc]

theorem result_lines_append (w : World) (xs ys : List Tuple) :
    ∀ n : Nat, result_lines w n (xs ++ ys) =
      result_lines w n xs ++ result_lines w (n + 2 * xs.length) ys := by
  induction xs with
  | nil => intro n; simp [result_lines]
  | cons x rest ih =>
    intro n
    have e : n + 2 + 2 * rest.length = n + 2 * (rest.length + 1) := by omega
    rw [List.cons_append, result_lines, result_lines, ih, List.length_cons, e, List.cons_append]

theorem result_lines_length (w : World) (xs : List Tuple) :
    ∀ n : Nat, (result_lines w n xs).length = xs.length := by
  induction xs with
  | nil => intro n; simp [result_lines]
  | cons x rest ih => intro n; simp [result_lines, ih]

theorem after_runs_append (w : World) (b : Bool) (xs ys : List Tuple) (s : Sys) :
    after_runs w b (xs ++ ys) s = after_runs w b ys (after_runs w b xs s) := by
  simp only [after_runs, result_lines_append, concat_append, String.append_assoc,
    List.flatMap_append, List.append_assoc, List.length_append, Sys.mk.injEq, true_and]
  omega

theorem after_runs_nil (w : World) (b : Bool) (s : Sys) : after_runs w b [] s = s := by
  simp [after_runs, result_lines, concat]

/-- When the loads of all the tuples succeed, the loop runs them all and returns. -/
theorem for_each_all_ok (w : World) (b : Bool) (ts : List Tuple) :
    ∀ s : Sys,
      (∀ i t, ts[i]? = some t → load_result w b (s.loads + i) t = true) →
      for_each (run_tuple w b) ts s = .ret () (after_runs w b ts s) := by
  induction ts with
  | nil => intro s _; simp [for_each, after_runs_nil]
  | cons t rest ih =>
    intro s h
    have h0 : load_result w b s.loads t = true := by
      have := h 0 t (by simp)
      simpa using this
    rw [for_each, run_tuple_ok w b t s h0]
    simp only
    rw [ih (after_runs w b [t] s)]
    · rw [← after_runs_append]
      rfl
    · intro i u hu
      have := h (i + 1) u (by simpa using hu)
      simpa [after_runs, Nat.add_assoc, Nat.add_comm 1 i] using this

/-- When the load of the tuple `t` is the first to fail, the loop runs the tuples
before it to completion and the process exits inside the run of `t`. -/
theorem for_each_first_failure (w : World) (b : Bool) (before after : List Tuple) (t : Tuple)
    (s : Sys)
    (hok : ∀ i u, before[i]? = some u → load_result w b (s.loads + i) u = true)
    (hfail : load_result w b (s.loads + before.length) t = false) :
    for_each (run_tuple w b) (before ++ t :: after) s =
      .exit EXIT_FAILURE (after_failed_load b t (after_runs w b before s)) := by
  rw [for_each_append, for_each_all_ok w b before s hok]
  simp only [for_each]
  rw [run_tuple_failed w b t _ (by simpa [after_runs] using hfail)]

/-! ## Lemmas on `main` -/

theorem parse_ret_inv {args : List String} {c0 c : Config} {s0 s : Sys}
    (h : parse_command_line args c0 s0 = .ret c s) :
    args ≠ [] ∧ (∀ a ∈ args, is_option a = true → a ∈ recognized_flags) ∧
      c = fill_defaults (scanned args c0) ∧ s = s0 := by
  rcases parse_command_line_cases args c0 s0 with ⟨h1, h2, h3⟩ | ⟨_, h3⟩
  · rw [h3] at h
    injection h with hc hs
    exact ⟨h1, h2, hc.symm, hs.symm⟩
  · rw [h3] at h
    exact Run.noConfusion h

theorem fill_defaults_eq (c : Config) :
    fill_defaults c =
      { use_binary := c.use_binary
        representations := selection c.representations default_representations
        algorithms := selection c.algorithms default_algorithms
        ansaetze := selection c.ansaetze default_ansaetze
        input_filenames := c.input_filenames } := by
  obtain ⟨b, rs, as, zs, fs⟩ := c
  cases rs <;> cases as <;> cases zs <;>
    simp [fill_defaults, selection, default_representations, default_algorithms,
      default_ansaetze]

/-- The configuration that a successful parse hands to the sweep. -/
theorem parsed_config {args : List String} {c : Config} {s : Sys}
    (h : parse_command_line args Config.start Sys.start = .ret c s) :
    c = { use_binary := format_after args true
          representations := selection (args.filterMap representation_flag) default_representations
          algorithms := selection (args.filterMap algorithm_flag) default_algorithms
          ansaetze := selection (args.filterMap ansatz_flag) default_ansaetze
          input_filenames := args.filter (fun a => !is_option a) } ∧ s = Sys.start := by
  obtain ⟨_, _, hc, hs⟩ := parse_ret_inv h
  refine ⟨?_, hs⟩
  rw [hc, fill_defaults_eq]
  simp [scanned, Config.start]

theorem main_all_ok (w : World) {args : List String} {c : Config} {s : Sys}
    (hparse : parse_command_line args Config.start Sys.start = .ret c s)
    (hload : ∀ i t, (enumeration c)[i]? = some t → load_result w c.use_binary i t = true) :
    main w args = (0, after_runs w c.use_binary (enumeration c) Sys.start) := by
  obtain ⟨_, _, _, hs⟩ := parse_ret_inv hparse
  subst hs
  have hrun := for_each_all_ok w c.use_binary (enumeration c) Sys.start
    (by simpa [Sys.start] using hload)
  simp [main, hparse, sweep_eq, hrun]

theorem main_first_failure (w : World) {args : List String} {c : Config} {s : Sys}
    (before after : List Tuple) (t : Tuple)
    (hparse : parse_command_line args Config.start Sys.start = .ret c s)
    (henum : enumeration c = before ++ t :: after)
    (hok : ∀ i u, before[i]? = some u → load_result w c.use_binary i u = true)
    (hfail : load_result w c.use_binary before.length t = false) :
    main w args =
      (EXIT_FAILURE, after_failed_load c.use_binary t
        (after_runs w c.use_binary before Sys.start)) := by
  obtain ⟨_, _, _, hs⟩ := parse_ret_inv hparse
  subst hs
  have hrun := for_each_first_failure w c.use_binary before after t Sys.start
    (by simpa [Sys.start] using hok) (by simpa [Sys.start] using hfail)
  simp [main, hparse, sweep_eq, henum, hrun]

theorem main_usage_error (w : World) {args : List String}
    (h : args = [] ∨ ∃ a ∈ args, is_option a = true ∧ a ∉ recognized_flags) :
    main w args = (EXIT_FAILURE, print_help Sys.start) := by
  simp [main, parse_command_line_bad args Config.start Sys.start h]

/-! ## Lemmas on traces and counts -/

theorem invocations_run_events (b : Bool) (ts : List Tuple) :
    invocations (ts.flatMap (run_events b)) = ts := by
  induction ts with
  | nil => rfl
  | cons t rest ih =>
    rw [List.flatMap_cons, invocations, List.filterMap_append]
    rw [invocations] at ih
    rw [ih]
    simp [run_events, load_event, reduction_event, List.filterMap_cons]
    split_ifs <;> simp

theorem load_calls_run_events (b : Bool) (ts : List Tuple) :
    load_calls (ts.flatMap (run_events b)) = ts.map (load_of b) := by
  induction ts with
  | nil => rfl
  | cons t rest ih =>
    rw [List.flatMap_cons, load_calls, List.filterMap_append]
    rw [load_calls] at ih
    rw [ih]
    cases b <;>
      simp [run_events, load_event, reduction_event, List.filterMap_cons, load_of] <;>
      split_ifs <;> simp

theorem reduction_calls_run_events (b : Bool) (ts : List Tuple) :
    reduction_calls (ts.flatMap (run_events b)) = ts.map reduction_of := by
  induction ts with
  | nil => rfl
  | cons t rest ih =>
    rw [List.flatMap_cons, reduction_calls, List.filterMap_append]
    rw [reduction_calls] at ih
    rw [ih]
    obtain ⟨f, a, r, z⟩ := t
    cases b <;> cases z <;>
      simp [run_events, load_event, reduction_event, List.filterMap_cons, reduction_of]

theorem length_flatMap_const {α β : Type} (f : α → List β) (n : Nat) (xs : List α)
    (h : ∀ x, (f x).length = n) : (xs.flatMap f).length = xs.length * n := by
  induction xs with
  | nil => simp
  | cons x rest ih =>
    rw [List.flatMap_cons, List.length_append, ih, h, List.length_cons]
    ring

/-- The enumeration has as many tuples as the product of the four lengths. -/
theorem enumeration_length (c : Config) :
    (enumeration c).length =
      c.input_filenames.length * c.algorithms.length * c.representations.length
        * c.ansaetze.length := by
  unfold enumeration
  rw [length_flatMap_const _ (c.algorithms.length * (c.representations.length * c.ansaetze.length))]
  · ring
  · intro p
    rw [length_flatMap_const _ (c.representations.length * c.ansaetze.length)]
    intro a
    rw [length_flatMap_const _ c.ansaetze.length]
    intro r
    simp

theorem result_lines_all_loads_succeed (w : World) (ts : List Tuple) :
    ∀ n : Nat, result_lines w.all_loads_succeed n ts = result_lines w n ts := by
  induction ts with
  | nil => intro n; rfl
  | cons t rest ih =>
    intro n
    rw [result_lines, result_lines, ih]
    rfl

/-! ## The claims -/

/-- C1: when parsing succeeds with the configuration `c` and every load of the
sweep succeeds, the invocations of `benchmark` that `main` performs are exactly
the nested enumeration of `c` (input paths outermost, then algorithms, then
representations, then ansaetze innermost) and the process ends with status 0.
In particular, for one input file `f`, placed anywhere among the flags
`--standard --twist --vector_vector --primal`, there are exactly two runs: the
first with Standard, the second with Twist, both with VectorVector and Primal,
each with its direct reduction and its result line. -/
theorem main_invocations_nested (w : World) (args : List String) (c : Config) (s : Sys)
    (hparse : parse_command_line args Config.start Sys.start = .ret c s)
    (hload : ∀ i t, (enumeration c)[i]? = some t → load_result w c.use_binary i t = true) :
    invocations (main w args).2.trace = enumeration c ∧
    (main w args).1 = 0 ∧
    (∀ (f : String) (front back : List String),
      is_option f = false →
      front ++ back = ["--standard", "--twist", "--vector_vector", "--primal"] →
      args = front ++ f :: back →
      invocations (main w args).2.trace =
        [(f, .STANDARD, .VECTOR_VECTOR, .PRIMAL), (f, .TWIST, .VECTOR_VECTOR, .PRIMAL)] ∧
      reduction_calls (main w args).2.trace =
        [(.standard_reduction, .vector_vector, false), (.twist_reduction, .vector_vector, false)] ∧
      (main w args).2.cout =
        result_line w 0 (f, .STANDARD, .VECTOR_VECTOR, .PRIMAL) ++
          result_line w 2 (f, .TWIST, .VECTOR_VECTOR, .PRIMAL)) := by
  have hmain := main_all_ok w hparse hload
  have htrace : (main w args).2.trace = (enumeration c).flatMap (run_events c.use_binary) := by
    rw [hmain]
    simp [after_runs, Sys.start]
  have hinv : invocations (main w args).2.trace = enumeration c := by
    rw [htrace, invocations_run_events]
  refine ⟨hinv, by rw [hmain], ?_⟩
  intro f front back hf hflags hargs
  have hc := (parsed_config hparse).1
  have hsplit : ∀ {β : Type} (g : String → Option β), g f = none →
      args.filterMap g =
        ["--standard", "--twist", "--vector_vector", "--primal"].filterMap g := by
    intro β g hg
    rw [hargs, ← hflags, List.filterMap_append, List.filterMap_append, List.filterMap_cons, hg]
  obtain ⟨_, g2, g3, g4⟩ := no_flag_of_not_option hf
  have hreps : args.filterMap representation_flag = [.VECTOR_VECTOR] := by
    rw [hsplit _ g2]; decide
  have halgs : args.filterMap algorithm_flag = [.STANDARD, .TWIST] := by
    rw [hsplit _ g3]; decide
  have hans : args.filterMap ansatz_flag = [.PRIMAL] := by
    rw [hsplit _ g4]; decide
  have hpaths : args.filter (fun a => !is_option a) = [f] := by
    have h0 : (front ++ back).filter (fun a => !is_option a) = [] := by
      rw [hflags]; decide
    rw [List.filter_append, List.append_eq_nil] at h0
    rw [hargs, List.filter_append, List.filter_cons, h0.1, h0.2]
    simp [hf]
  rw [hreps, halgs, hans, hpaths] at hc
  have henum : enumeration c =
      [(f, .STANDARD, .VECTOR_VECTOR, .PRIMAL), (f, .TWIST, .VECTOR_VECTOR, .PRIMAL)] := by
    rw [hc]
    simp [enumeration, selection]
  refine ⟨by rw [hinv, henum], ?_, ?_⟩
  · rw [htrace, reduction_calls_run_events, henum]
    simp [reduction_of, reduction_procedure, matrix_type]
  · rw [hmain, henum]
    simp [after_runs, Sys.start, result_lines, concat]

/-- Witness of C1: `benchmark f --standard --twist --vector_vector --primal` in a world
where every load succeeds. -/
theorem main_invocations_nested_witness :
    parse_command_line ["f", "--standard", "--twist", "--vector_vector", "--primal"]
        Config.start Sys.start =
      .ret { use_binary := true, representations := [.VECTOR_VECTOR],
             algorithms := [.STANDARD, .TWIST], ansaetze := [.PRIMAL],
             input_filenames := ["f"] } Sys.start ∧
    invocations (main World.example_ok
        ["f", "--standard", "--twist", "--vector_vector", "--primal"]).2.trace =
      [("f", .STANDARD, .VECTOR_VECTOR, .PRIMAL), ("f", .TWIST, .VECTOR_VECTOR, .PRIMAL)] :=
  ⟨by decide,
   ((main_invocations_nested World.example_ok
      ["f", "--standard", "--twist", "--vector_vector", "--primal"]
      { use_binary := true, representations := [.VECTOR_VECTOR],
        algorithms := [.STANDARD, .TWIST], ansaetze := [.PRIMAL],
        input_filenames := ["f"] } Sys.start (by decide)
      (by intro i t _; simp [load_result, World.example_ok])).2.2
      "f" [] ["--standard", "--twist", "--vector_vector", "--primal"]
      (by decide) (by decide) (by decide)).1⟩

/-- C2 (counterexample): with the other arguments `f --vector_vector --primal`
and `--twist` kept equal, giving `--standard --standard` instead of `--standard`
takes the number of runs from 2 to 3, which is not the double. -/
theorem repeated_flag_not_double :
    run_count (main World.example_ok
      ["f", "--vector_vector", "--primal", "--standard", "--twist"]) = 2 ∧
    run_count (main World.example_ok
      ["f", "--vector_vector", "--primal", "--standard", "--standard", "--twist"]) = 3 ∧
    run_count (main World.example_ok
      ["f", "--vector_vector", "--primal", "--standard", "--standard", "--twist"]) ≠
      2 * run_count (main World.example_ok
        ["f", "--vector_vector", "--primal", "--standard", "--twist"]) := by
  decide

/-- C2 (amended): when every load succeeds, a successful parse with configuration
`c` is followed by exactly
`|input_paths| * |algorithms| * |representations| * |ansaetze|` loads, as many
reductions and as many result lines, the lengths counting duplicates; and
giving `--standard --standard` instead of `--standard` doubles the number of runs
when the other arguments, kept equal, hold no algorithm selector. -/
theorem run_count_product (w : World) (hw : w.every_load_succeeds) :
    (∀ (args : List String) (c : Config) (s : Sys),
      parse_command_line args Config.start Sys.start = .ret c s →
      (load_calls (main w args).2.trace).length =
          c.input_filenames.length * c.algorithms.length * c.representations.length
            * c.ansaetze.length ∧
      (reduction_calls (main w args).2.trace).length =
          c.input_filenames.length * c.algorithms.length * c.representations.length
            * c.ansaetze.length ∧
      (main w args).2.cout = concat (result_lines w 0 (enumeration c)) ∧
      (result_lines w 0 (enumeration c)).length =
          c.input_filenames.length * c.algorithms.length * c.representations.length
            * c.ansaetze.length) ∧
    (∀ front back : List String,
      (∀ a ∈ front ++ back, algorithm_flag a = none) →
      run_count (main w (front ++ "--standard" :: "--standard" :: back)) =
        2 * run_count (main w (front ++ "--standard" :: back))) := by
  have hall : ∀ (b : Bool) (c : Config) (i : Nat) (t : Tuple),
      (enumeration c)[i]? = some t → load_result w b i t = true := by
    intro b c i t _
    cases b <;> simp [load_result, (hw _ _ _).1, (hw _ _ _).2]
  have hcount : ∀ (args : List String) (c : Config) (s : Sys),
      parse_command_line args Config.start Sys.start = .ret c s →
      main w args = (0, after_runs w c.use_binary (enumeration c) Sys.start) :=
    fun args c s hparse => main_all_ok w hparse (hall c.use_binary c)
  constructor
  · intro args c s hparse
    rw [hcount args c s hparse]
    simp only [after_runs, Sys.start, List.nil_append, load_calls_run_events,
      reduction_calls_run_events, List.length_map, result_lines_length, enumeration_length,
      String.empty_append, and_self]
  · intro front back hother
    have hfront : ∀ a ∈ front, algorithm_flag a = none :=
      fun a ha => hother a (List.mem_append_left _ ha)
    have hback : ∀ a ∈ back, algorithm_flag a = none :=
      fun a ha => hother a (List.mem_append_right _ ha)
    have hnone : ∀ l : List String, (∀ a ∈ l, algorithm_flag a = none) →
        l.filterMap algorithm_flag = [] := by
      intro l hl
      rw [List.filterMap_eq_nil_iff]
      exact hl
    have hstd : algorithm_flag "--standard" = some .STANDARD := by decide
    rcases parse_command_line_cases (front ++ "--standard" :: back) Config.start Sys.start with
      ⟨_, hrec, hparse⟩ | ⟨hbad, _⟩
    · have hrec2 : ∀ a ∈ front ++ "--standard" :: "--standard" :: back,
          is_option a = true → a ∈ recognized_flags := by
        intro a ha
        apply hrec
        simp only [List.mem_append, List.mem_cons] at ha ⊢
        tauto
      have hparse2 := parse_command_line_ok (front ++ "--standard" :: "--standard" :: back)
        Config.start Sys.start (by simp) hrec2
      have h1 := hcount _ _ _ hparse
      have h2 := hcount _ _ _ hparse2
      have c1 := (parsed_config hparse).1
      have c2 := (parsed_config hparse2).1
      simp only [run_count, h1, h2, after_runs, Sys.start, List.nil_append,
        reduction_calls_run_events, List.length_map, enumeration_length]
      have hr : representation_flag "--standard" = none := by decide
      have hz : ansatz_flag "--standard" = none := by decide
      have ho : is_option "--standard" = true := by decide
      rw [c1, c2]
      simp only [List.filterMap_append, List.filterMap_cons, hstd, hr, hz, hnone front hfront,
        hnone back hback, List.filter_append, List.filter_cons, ho, selection,
        List.nil_append, List.isEmpty_cons, Bool.not_true, Bool.false_eq_true, if_false,
        List.length_cons, List.length_nil]
      ring
    · have hbad2 : front ++ "--standard" :: "--standard" :: back = [] ∨
          ∃ a ∈ front ++ "--standard" :: "--standard" :: back,
            is_option a = true ∧ a ∉ recognized_flags := by
        rcases hbad with h | ⟨a, ha, h⟩
        · simp at h
        · refine Or.inr ⟨a, ?_, h⟩
          simp only [List.mem_append, List.mem_cons] at ha ⊢
          tauto
      rw [main_usage_error w hbad, main_usage_error w hbad2]
      simp [run_count, print_help, Sys.start, reduction_calls]

/-- Witness of C2: `benchmark f --standard --standard` against `benchmark f --standard`
in a world where every load succeeds. -/
theorem run_count_product_witness :
    World.example_ok.every_load_succeeds ∧
    run_count (main World.example_ok ["f", "--standard", "--standard"]) =
      2 * run_count (main World.example_ok ["f", "--standard"]) :=
  ⟨fun _ _ _ => ⟨rfl, rfl⟩,
   (run_count_product World.example_ok (fun _ _ _ => ⟨rfl, rfl⟩)).2 ["f"] []
     (by decide)⟩

/-- C3: for each of the 6 x 4 x 2 tuples, `benchmark` calls `compute` instantiated
with the matrix type of the requested representation and the reduction procedure
of the requested algorithm, whatever the cell: the load is made on that matrix
type, and when it succeeds the reduction called is the direct one of that
procedure for Primal and the dualized one for Dual, on that matrix type. Every
cell makes the load call, so none dispatches to nothing. -/
theorem benchmark_dispatches_requested (w : World) (f : String) (b : Bool)
    (a : Algorithm_type) (r : Representation_type) (z : Ansatz_type) (s : Sys) :
    benchmark w f b a r z s =
      compute w (matrix_type r) (reduction_procedure a) f b z
        { s with
          cout := s.cout ++ line_start (f, a, r, z)
          trace := s.trace ++ [Event.benchmark f b a r z] } ∧
    (benchmark w f b a r z s).state.trace =
      s.trace ++
        [Event.benchmark f b a r z,
         if b then Event.load_binary (matrix_type r) f else Event.load_ascii (matrix_type r) f] ++
        (if (if b then w.load_binary s.loads (matrix_type r) f
             else w.load_ascii s.loads (matrix_type r) f) = true then
          [match z with
           | .PRIMAL => Event.compute_persistence_pairs (reduction_procedure a) (matrix_type r)
           | .DUAL =>
             Event.compute_persistence_pairs_dualized (reduction_procedure a) (matrix_type r)]
         else []) := by
  refine ⟨benchmark_dispatch w f b a r z s, ?_⟩
  have hrun : benchmark w f b a r z s = run_tuple w b (f, a, r, z) s := rfl
  cases hl : load_result w b s.loads (f, a, r, z) with
  | true =>
    rw [hrun, run_tuple_ok w b _ s hl]
    simp only [load_result] at hl
    cases z <;> simp [Run.state, after_runs, run_events, load_event, reduction_event, hl]
  | false =>
    rw [hrun, run_tuple_failed w b _ s hl]
    simp only [load_result] at hl
    simp [Run.state, after_failed_load, load_event, hl]

/-- C4: fail-fast. When parsing succeeds and the load of the tuple number `k` of
the enumeration is the first to fail, the process ends with the failure status;
the tuples up to `k` are the ones for which `benchmark` is entered and a load is
attempted, the tuples before `k` are the ones reduced, each with its own
reduction, and their result lines are the ones that a sweep in which every load
succeeds writes first; nothing is loaded or reduced for a later tuple. -/
theorem sweep_fail_fast (w : World) (args : List String) (c : Config) (s : Sys) (k : Nat)
    (t : Tuple)
    (hparse : parse_command_line args Config.start Sys.start = .ret c s)
    (hok : ∀ i u, i < k → (enumeration c)[i]? = some u →
      load_result w c.use_binary i u = true)
    (hk : (enumeration c)[k]? = some t)
    (hfail : load_result w c.use_binary k t = false) :
    (main w args).1 = EXIT_FAILURE ∧ EXIT_FAILURE ≠ 0 ∧
    invocations (main w args).2.trace = (enumeration c).take (k + 1) ∧
    load_calls (main w args).2.trace =
      ((enumeration c).take (k + 1)).map (load_of c.use_binary) ∧
    reduction_calls (main w args).2.trace = ((enumeration c).take k).map reduction_of ∧
    (main w args).2.cout =
      concat (result_lines w 0 ((enumeration c).take k)) ++ line_start t ∧
    (main w.all_loads_succeed args).2.cout =
      concat (result_lines w 0 ((enumeration c).take k)) ++
        concat (result_lines w (2 * k) ((enumeration c).drop k)) := by
  obtain ⟨hklt, hget⟩ := List.getElem?_eq_some_iff.mp hk
  have hlen : ((enumeration c).take k).length = k := by
    rw [List.length_take]; omega
  have hsplit : enumeration c = (enumeration c).take k ++ t :: (enumeration c).drop (k + 1) := by
    rw [← hget, List.getElem_cons_drop, List.take_append_drop]
  have htake1 : (enumeration c).take (k + 1) = (enumeration c).take k ++ [t] := by
    rw [List.take_succ, hk]; rfl
  have hok2 : ∀ i u, ((enumeration c).take k)[i]? = some u →
      load_result w c.use_binary i u = true := by
    intro i u hu
    have hi : i < k := by
      have := (List.getElem?_eq_some_iff.mp hu).1
      omega
    rw [List.getElem?_take_of_lt hi] at hu
    exact hok i u hi hu
  have hmain := main_first_failure w ((enumeration c).take k) ((enumeration c).drop (k + 1)) t
    hparse hsplit hok2 (by rw [hlen]; exact hfail)
  have hall := main_all_ok w.all_loads_succeed hparse
    (by intro i u _; cases c.use_binary <;> simp [load_result, World.all_loads_succeed])
  refine ⟨by rw [hmain], by decide, ?_, ?_, ?_, ?_, ?_⟩
  · rw [hmain, htake1]
    simp only [after_failed_load, after_runs, Sys.start, List.nil_append, invocations,
      List.filterMap_append]
    rw [← invocations, invocations_run_events]
    simp [load_event]
    split_ifs <;> simp
  · rw [hmain, htake1]
    simp only [after_failed_load, after_runs, Sys.start, List.nil_append, load_calls,
      List.filterMap_append]
    rw [← load_calls, load_calls_run_events]
    cases c.use_binary <;> simp [load_event, load_of]
  · rw [hmain]
    simp only [after_failed_load, after_runs, Sys.start, List.nil_append, reduction_calls,
      List.filterMap_append]
    rw [← reduction_calls, reduction_calls_run_events]
    cases c.use_binary <;> simp [load_event]
  · rw [hmain]
    simp [after_failed_load, after_runs, Sys.start]
  · rw [hall]
    simp only [after_runs, Sys.start, String.empty_append, result_lines_all_loads_succeed]
    have h2 := result_lines_append w ((enumeration c).take k) ((enumeration c).drop k) 0
    rw [List.take_append_drop, hlen, Nat.zero_add] at h2
    rw [h2, concat_append]

/-- Witness of C4: `benchmark f --vector_vector --primal` in a world where the second
load fails: one result line, then the start of the line of the failing tuple. -/
theorem sweep_fail_fast_witness :
    (main (World.example_failing 1) ["f", "--vector_vector", "--primal"]).1 = EXIT_FAILURE ∧
    reduction_calls (main (World.example_failing 1) ["f", "--vector_vector", "--primal"]).2.trace =
      [(.standard_reduction, .vector_vector, false)] ∧
    (main (World.example_failing 1) ["f", "--vector_vector", "--primal"]).2.cout =
      "f vector_vector standard_reduction primal 0.0s\nf vector_vector twist_reduction" :=
  have h := sweep_fail_fast (World.example_failing 1) ["f", "--vector_vector", "--primal"]
    { use_binary := true, representations := [.VECTOR_VECTOR],
      algorithms := [.STANDARD, .TWIST, .ROW, .CHUNK], ansaetze := [.PRIMAL],
      input_filenames := ["f"] } Sys.start 1 ("f", .TWIST, .VECTOR_VECTOR, .PRIMAL)
    (by decide)
    (by intro i u hi _; simp [load_result, World.example_failing]; omega)
    (by decide) (by decide)
  ⟨h.1, h.2.2.2.2.1, h.2.2.2.2.2.1⟩

/-- C5 (counterexample): the load of the only tuple of `benchmark f` fails at once,
and yet its path, representation label and algorithm label are on the standard
output when the process exits. -/
theorem failed_load_leaves_text :
    load_result (World.example_failing 0) true 0 ("f", .STANDARD, .VECTOR_VECTOR, .PRIMAL)
      = false ∧
    benchmark (World.example_failing 0) "f" true .STANDARD .VECTOR_VECTOR .PRIMAL Sys.start =
      .exit EXIT_FAILURE
        { cout := "f vector_vector standard_reduction"
          cerr := "\n Error opening file f\n" ++ help_text
          trace := [Event.benchmark "f" true .STANDARD .VECTOR_VECTOR .PRIMAL,
                    Event.load_binary .vector_vector "f"]
          loads := 1
          clock := 0 } ∧
    (main (World.example_failing 0) ["f"]).2.cout = "f vector_vector standard_reduction" ∧
    (main (World.example_failing 0) ["f"]).2.cout ≠ "" :=
  ⟨by decide, rfl, by decide, by decide⟩

/-- C5 (amended): for every tuple whose load fails, `benchmark` ends the process
with the failure status after writing to the standard output exactly the path,
the representation label and the algorithm label, separated by single spaces,
with no ansatz label, no elapsed time and no newline; the diagnostic naming the
file and the usage text go to the error stream, and no reduction is called. -/
theorem failed_load_output (w : World) (f : String) (b : Bool) (a : Algorithm_type)
    (r : Representation_type) (z : Ansatz_type) (s : Sys)
    (hfail : load_result w b s.loads (f, a, r, z) = false) :
    ∃ s1, benchmark w f b a r z s = .exit EXIT_FAILURE s1 ∧
      s1.cout = s.cout ++ (f ++ " " ++ representation_label r ++ " " ++ algorithm_label a) ∧
      s1.cerr = s.cerr ++ ("\n" ++ " Error opening file " ++ f ++ "\n" ++ help_text) ∧
      reduction_calls s1.trace = reduction_calls s.trace := by
  have hrun : benchmark w f b a r z s = run_tuple w b (f, a, r, z) s := rfl
  refine ⟨after_failed_load b (f, a, r, z) s, ?_, rfl, rfl, ?_⟩
  · rw [hrun, run_tuple_failed w b _ s hfail]
  · cases b <;> simp [after_failed_load, reduction_calls, load_event, List.filterMap_append]

/-- Witness of C5: the ascii load of `f` for (Row, VectorSet, Dual) fails. -/
theorem failed_load_output_witness :
    load_result (World.example_failing 0) false 0 ("f", .ROW, .VECTOR_SET, .DUAL) = false ∧
    ∃ s1, benchmark (World.example_failing 0) "f" false .ROW .VECTOR_SET .DUAL Sys.start =
        .exit EXIT_FAILURE s1 ∧
      s1.cout = Sys.start.cout ++ ("f" ++ " " ++ representation_label .VECTOR_SET ++ " "
        ++ algorithm_label .ROW) ∧
      s1.cerr = Sys.start.cerr ++ ("\n" ++ " Error opening file " ++ "f" ++ "\n" ++ help_text) ∧
      reduction_calls s1.trace = reduction_calls Sys.start.trace :=
  ⟨by decide,
   failed_load_output (World.example_failing 0) "f" false .ROW .VECTOR_SET .DUAL Sys.start
     (by decide)⟩

/-- C6 (counterexample): the token `--` starts with a double dash and is none of
the 14 recognized flags, and yet parsing `benchmark --` succeeds, with `--` as
an input path. -/
theorem bare_double_dash_accepted :
    starts_with_double_dash "--" = true ∧ "--" ∉ recognized_flags ∧
    parse_command_line ["--"] Config.start Sys.start =
      .ret { use_binary := true, representations := default_representations,
             algorithms := default_algorithms, ansaetze := default_ansaetze,
             input_filenames := ["--"] } Sys.start := by
  decide

/-- C6 (amended): parsing ends in a usage error (usage text on the error stream,
failure status) if and only if the argument list is empty or contains a token
that starts with a double dash, is longer than the bare `--` and is not one of
the 14 recognized non-help flags; otherwise it returns. So every token that
starts with a double dash, the bare `--` apart, is treated as a flag, and
`--help` and every unrecognized such token are rejected. -/
theorem usage_error_iff (args : List String) (c : Config) (s : Sys) :
    (parse_command_line args c s = .exit EXIT_FAILURE (print_help s) ↔
      (args = [] ∨ ∃ a ∈ args,
        starts_with_double_dash a = true ∧ a ≠ "--" ∧ a ∉ recognized_flags)) ∧
    ((∃ c1, parse_command_line args c s = .ret c1 s) ↔
      ¬ (args = [] ∨ ∃ a ∈ args,
        starts_with_double_dash a = true ∧ a ≠ "--" ∧ a ∉ recognized_flags)) ∧
    (∀ a : String, is_option a = true ↔ (starts_with_double_dash a = true ∧ a ≠ "--")) ∧
    ("--help" ∈ args → parse_command_line args c s = .exit EXIT_FAILURE (print_help s)) ∧
    EXIT_FAILURE ≠ 0 ∧ (print_help s).cerr = s.cerr ++ help_text := by
  have hopt : ∀ a : String,
      is_option a = true ↔ (starts_with_double_dash a = true ∧ a ≠ "--") := by
    intro a
    rw [is_option_eq]
    simp
  have hcond : (args = [] ∨ ∃ a ∈ args,
        starts_with_double_dash a = true ∧ a ≠ "--" ∧ a ∉ recognized_flags) ↔
      (args = [] ∨ ∃ a ∈ args, is_option a = true ∧ a ∉ recognized_flags) := by
    constructor
    · rintro (h | ⟨a, ha, h1, h2, h3⟩)
      · exact Or.inl h
      · exact Or.inr ⟨a, ha, (hopt a).mpr ⟨h1, h2⟩, h3⟩
    · rintro (h | ⟨a, ha, h1, h3⟩)
      · exact Or.inl h
      · exact Or.inr ⟨a, ha, ((hopt a).mp h1).1, ((hopt a).mp h1).2, h3⟩
  rw [hcond]
  refine ⟨?_, ?_, hopt, ?_, by decide, rfl⟩
  · constructor
    · intro h
      rcases parse_command_line_cases args c s with ⟨_, _, h3⟩ | ⟨h1, _⟩
      · rw [h3] at h
        exact Run.noConfusion h
      · exact h1
    · exact parse_command_line_bad args c s
  · constructor
    · rintro ⟨c1, h⟩ hbad
      rw [parse_command_line_bad args c s hbad] at h
      exact Run.noConfusion h
    · intro hgood
      rcases parse_command_line_cases args c s with ⟨_, _, h3⟩ | ⟨h1, _⟩
      · exact ⟨_, h3⟩
      · exact absurd h1 hgood
  · intro hhelp
    exact parse_command_line_bad args c s
      (Or.inr ⟨"--help", hhelp, by decide, by decide⟩)

/-- Witness of C6: `--help` after a valid path ends parsing in the usage error. -/
theorem usage_error_iff_witness :
    "--help" ∈ ["f", "--help"] ∧
    parse_command_line ["f", "--help"] Config.start Sys.start =
      .exit EXIT_FAILURE (print_help Sys.start) :=
  ⟨by decide,
   (usage_error_iff ["f", "--help"] Config.start Sys.start).2.2.2.1 (by decide)⟩

/-- C7: an argument list that triggers a usage error (the empty list, `--help`,
or a token taken for a flag and not recognized, at any position) makes the
program end with the failure status with nothing on the standard output, no
load and no reduction, not even an entry into `benchmark`; the usage text is all
that the error stream holds. -/
theorem usage_error_silent (w : World) (args : List String)
    (h : args = [] ∨ "--help" ∈ args ∨
      ∃ a ∈ args, is_option a = true ∧ a ∉ recognized_flags) :
    parse_command_line args Config.start Sys.start =
      .exit EXIT_FAILURE (print_help Sys.start) ∧
    (main w args).1 = EXIT_FAILURE ∧ EXIT_FAILURE ≠ 0 ∧
    (main w args).2.cout = "" ∧
    (main w args).2.trace = [] ∧
    load_calls (main w args).2.trace = [] ∧
    reduction_calls (main w args).2.trace = [] ∧
    (main w args).2.cerr = help_text := by
  have h2 : args = [] ∨ ∃ a ∈ args, is_option a = true ∧ a ∉ recognized_flags := by
    rcases h with h | h | h
    · exact Or.inl h
    · exact Or.inr ⟨"--help", h, by decide, by decide⟩
    · exact Or.inr h
  rw [main_usage_error w h2]
  exact ⟨parse_command_line_bad args _ _ h2, rfl, by decide, rfl, rfl, rfl, rfl, rfl⟩

/-- Witness of C7: an unrecognized flag after a valid path and a valid flag. -/
theorem usage_error_silent_witness :
    (main World.example_ok ["f", "--standard", "--bogus", "g"]).1 = EXIT_FAILURE ∧
    (main World.example_ok ["f", "--standard", "--bogus", "g"]).2.cout = "" ∧
    (main World.example_ok ["f", "--standard", "--bogus", "g"]).2.trace = [] :=
  have h := usage_error_silent World.example_ok ["f", "--standard", "--bogus", "g"]
    (Or.inr (Or.inr ⟨"--bogus", by decide, by decide, by decide⟩))
  ⟨h.2.1, h.2.2.2.1, h.2.2.2.2.1⟩

/-- C8: after a successful parse, a category without a flag holds exactly its
canonical defaults (the six representations, the four algorithms, Primal then
Dual, in that order), and a category with at least one flag holds the kinds that
its flags name and no default entry. -/
theorem defaults_when_unselected (args : List String) (c : Config) (s : Sys)
    (hparse : parse_command_line args Config.start Sys.start = .ret c s) :
    ((∀ a ∈ args, representation_flag a = none) →
      c.representations =
        [.VECTOR_VECTOR, .VECTOR_SET, .VECTOR_LIST, .FULL_PIVOT_COLUMN, .BIT_TREE_PIVOT_COLUMN,
         .SPARSE_PIVOT_COLUMN]) ∧
    ((∀ a ∈ args, algorithm_flag a = none) →
      c.algorithms = [.STANDARD, .TWIST, .ROW, .CHUNK]) ∧
    ((∀ a ∈ args, ansatz_flag a = none) → c.ansaetze = [.PRIMAL, .DUAL]) ∧
    ((∃ a ∈ args, representation_flag a ≠ none) →
      c.representations = args.filterMap representation_flag) ∧
    ((∃ a ∈ args, algorithm_flag a ≠ none) → c.algorithms = args.filterMap algorithm_flag) ∧
    ((∃ a ∈ args, ansatz_flag a ≠ none) → c.ansaetze = args.filterMap ansatz_flag) := by
  have hc := (parsed_config hparse).1
  have hnil : ∀ {β : Type} (g : String → Option β), (∀ a ∈ args, g a = none) →
      selection (args.filterMap g) = fun d => d := by
    intro β g hg
    funext d
    rw [List.filterMap_eq_nil_iff.mpr hg]
    rfl
  have hsome : ∀ {β : Type} (g : String → Option β), (∃ a ∈ args, g a ≠ none) →
      selection (args.filterMap g) = fun _ => args.filterMap g := by
    intro β g hg
    funext d
    have hne : args.filterMap g ≠ [] := by
      intro h0
      obtain ⟨a, ha, hga⟩ := hg
      exact hga (List.filterMap_eq_nil_iff.mp h0 a ha)
    cases hl : args.filterMap g with
    | nil => exact absurd hl hne
    | cons x rest => rfl
  refine ⟨?_, ?_, ?_, ?_, ?_, ?_⟩ <;> intro h <;> rw [hc] <;> simp only
  · rw [hnil _ h]; rfl
  · rw [hnil _ h]; rfl
  · rw [hnil _ h]; rfl
  · rw [hsome _ h]
  · rw [hsome _ h]
  · rw [hsome _ h]

/-- Witness of C8: `benchmark f --twist --ascii` selects an algorithm and leaves the
other two categories to their defaults. -/
theorem defaults_when_unselected_witness :
    parse_command_line ["f", "--twist", "--ascii"] Config.start Sys.start =
      .ret { use_binary := false
             representations := default_representations
             algorithms := [.TWIST]
             ansaetze := default_ansaetze
             input_filenames := ["f"] } Sys.start ∧
    (∀ a ∈ ["f", "--twist", "--ascii"], ansatz_flag a = none) ∧
    (∃ a ∈ ["f", "--twist", "--ascii"], algorithm_flag a ≠ none) ∧
    default_ansaetze = [.PRIMAL, .DUAL] ∧
    [Algorithm_type.TWIST] = ["f", "--twist", "--ascii"].filterMap algorithm_flag :=
  have h := defaults_when_unselected ["f", "--twist", "--ascii"]
    { use_binary := false
      representations := default_representations
      algorithms := [.TWIST]
      ansaetze := default_ansaetze
      input_filenames := ["f"] } Sys.start (by decide)
  ⟨by decide, by decide, ⟨"--twist", by decide, by decide⟩, h.2.2.1 (by decide),
   h.2.2.2.2.1 ⟨"--twist", by decide, by decide⟩⟩

/-- C9: after a successful parse, a category with at least one selector flag
holds the kinds that its flags name, in argument order and with every repetition
kept; and the sequence of a category depends on the flags of that category only:
two argument lists that parse and agree on the flags of a category, in order,
end with the same sequence for it, whatever their other tokens. -/
theorem selection_keeps_order_and_repetition (args : List String) (c : Config) (s : Sys)
    (hparse : parse_command_line args Config.start Sys.start = .ret c s) :
    ((∃ a ∈ args, representation_flag a ≠ none) →
      c.representations = args.filterMap representation_flag) ∧
    ((∃ a ∈ args, algorithm_flag a ≠ none) → c.algorithms = args.filterMap algorithm_flag) ∧
    ((∃ a ∈ args, ansatz_flag a ≠ none) → c.ansaetze = args.filterMap ansatz_flag) ∧
    (∀ (args2 : List String) (c2 : Config) (s2 : Sys),
      parse_command_line args2 Config.start Sys.start = .ret c2 s2 →
      (args2.filterMap representation_flag = args.filterMap representation_flag →
        c2.representations = c.representations) ∧
      (args2.filterMap algorithm_flag = args.filterMap algorithm_flag →
        c2.algorithms = c.algorithms) ∧
      (args2.filterMap ansatz_flag = args.filterMap ansatz_flag →
        c2.ansaetze = c.ansaetze)) := by
  have hc := (parsed_config hparse).1
  have hsome : ∀ {β : Type} (g : String → Option β) (d : List β),
      (∃ a ∈ args, g a ≠ none) → selection (args.filterMap g) d = args.filterMap g := by
    intro β g d hg
    have hne : args.filterMap g ≠ [] := by
      intro h0
      obtain ⟨a, ha, hga⟩ := hg
      exact hga (List.filterMap_eq_nil_iff.mp h0 a ha)
    cases hl : args.filterMap g with
    | nil => exact absurd hl hne
    | cons x rest => rfl
  refine ⟨?_, ?_, ?_, ?_⟩
  · intro h; rw [hc]; exact hsome _ _ h
  · intro h; rw [hc]; exact hsome _ _ h
  · intro h; rw [hc]; exact hsome _ _ h
  · intro args2 c2 s2 hparse2
    have hc2 := (parsed_config hparse2).1
    refine ⟨?_, ?_, ?_⟩ <;> intro h <;> rw [hc, hc2] <;> simp only <;> rw [h]

/-- Witness of C9: `--twist` given twice around `--standard`, with a path and an
ansatz flag in between. -/
theorem selection_keeps_order_and_repetition_witness :
    (∃ a ∈ ["--twist", "f", "--dual", "--standard", "--twist"], algorithm_flag a ≠ none) ∧
    [Algorithm_type.TWIST, .STANDARD, .TWIST] =
      ["--twist", "f", "--dual", "--standard", "--twist"].filterMap algorithm_flag :=
  ⟨⟨"--twist", by decide, by decide⟩,
   (selection_keeps_order_and_repetition ["--twist", "f", "--dual", "--standard", "--twist"]
     { use_binary := true
       representations := default_representations
       algorithms := [.TWIST, .STANDARD, .TWIST]
       ansaetze := [.DUAL]
       input_filenames := ["f"] } Sys.start (by decide)).2.1
     ⟨"--twist", by decide, by decide⟩⟩

/-- C10 (counterexample): in `benchmark -- f` the token `--` starts with a double
dash and yet it is the first input path. -/
theorem bare_double_dash_is_path :
    parse_command_line ["--", "f"] Config.start Sys.start =
      .ret { use_binary := true, representations := default_representations,
             algorithms := default_algorithms, ansaetze := default_ansaetze,
             input_filenames := ["--", "f"] } Sys.start ∧
    ["--", "f"].filter (fun a => !starts_with_double_dash a) = ["f"] := by
  decide

/-- C10 (amended): after a successful parse, the input paths are exactly the
argument tokens that do not start with a double dash or are the bare `--`, in
argument order, however flags and paths are interleaved. -/
theorem input_paths_in_order (args : List String) (c : Config) (s : Sys)
    (hparse : parse_command_line args Config.start Sys.start = .ret c s) :
    c.input_filenames =
      args.filter (fun a => !starts_with_double_dash a || decide (a = "--")) := by
  rw [(parsed_config hparse).1]
  simp only
  apply List.filter_congr
  intro a _
  rw [is_option_eq]
  cases starts_with_double_dash a <;> simp

/-- Witness of C10: paths, flags, the bare `--` and a single-dash token interleaved. -/
theorem input_paths_in_order_witness :
    parse_command_line ["a", "--row", "--", "b", "--ascii", "-c"] Config.start Sys.start =
      .ret { use_binary := false, representations := default_representations,
             algorithms := [.ROW], ansaetze := default_ansaetze,
             input_filenames := ["a", "--", "b", "-c"] } Sys.start ∧
    ["a", "--", "b", "-c"] =
      ["a", "--row", "--", "b", "--ascii", "-c"].filter
        (fun a => !starts_with_double_dash a || decide (a = "--")) :=
  ⟨by decide,
   input_paths_in_order ["a", "--row", "--", "b", "--ascii", "-c"]
     { use_binary := false, representations := default_representations,
       algorithms := [.ROW], ansaetze := default_ansaetze,
       input_filenames := ["a", "--", "b", "-c"] } Sys.start (by decide)⟩

/-! ## Lemmas on the outcome of a sweep -/

/-- Either the loads of all the tuples succeed, or there is a first tuple whose
load fails. -/
theorem first_failure_or_none (w : World) (b : Bool) (ts : List Tuple) :
    ∀ n : Nat,
      (∀ i t, ts[i]? = some t → load_result w b (n + i) t = true) ∨
      ∃ before t after, ts = before ++ t :: after ∧
        (∀ i u, before[i]? = some u → load_result w b (n + i) u = true) ∧
        load_result w b (n + before.length) t = false := by
  induction ts with
  | nil =>
    intro n
    exact Or.inl (by intro i t h; simp at h)
  | cons t rest ih =>
    intro n
    cases ht : load_result w b n t with
    | false =>
      exact Or.inr ⟨[], t, rest, rfl, by intro i u h; simp at h, by simpa using ht⟩
    | true =>
      rcases ih (n + 1) with hall | ⟨before, u, after, hsplit, hok, hfail⟩
      · left
        intro i v hv
        cases i with
        | zero =>
          simp only [List.getElem?_cons_zero, Option.some.injEq] at hv
          subst hv
          simpa using ht
        | succ j =>
          have := hall j v (by simpa using hv)
          rwa [Nat.add_assoc, Nat.add_comm 1 j] at this
      · right
        refine ⟨t :: before, u, after, by rw [hsplit]; rfl, ?_, ?_⟩
        · intro i v hv
          cases i with
          | zero =>
            simp only [List.getElem?_cons_zero, Option.some.injEq] at hv
            subst hv
            simpa using ht
          | succ j =>
            have := hok j v (by simpa using hv)
            rwa [Nat.add_assoc, Nat.add_comm 1 j] at this
        · rw [List.length_cons, Nat.add_comm before.length 1, ← Nat.add_assoc]
          exact hfail

/-- The two ways in which `main` ends after a successful parse: every run is
completed, or the process exits inside the run of the first tuple whose load
fails. Which one it is depends on the loader only. -/
theorem main_outcome (w : World) {args : List String} {c : Config} {s : Sys}
    (hparse : parse_command_line args Config.start Sys.start = .ret c s) :
    ((∀ i t, (enumeration c)[i]? = some t → load_result w c.use_binary i t = true) ∧
      main w args = (0, after_runs w c.use_binary (enumeration c) Sys.start)) ∨
    ∃ before t after, enumeration c = before ++ t :: after ∧
      (∀ i u, before[i]? = some u → load_result w c.use_binary i u = true) ∧
      load_result w c.use_binary before.length t = false ∧
      main w args =
        (EXIT_FAILURE, after_failed_load c.use_binary t
          (after_runs w c.use_binary before Sys.start)) := by
  rcases first_failure_or_none w c.use_binary (enumeration c) 0 with
    hall | ⟨before, t, after, hsplit, hok, hfail⟩
  · left
    have hall2 : ∀ i t, (enumeration c)[i]? = some t →
        load_result w c.use_binary i t = true := by
      intro i t h
      simpa using hall i t h
    exact ⟨hall2, main_all_ok w hparse hall2⟩
  · right
    have hok2 : ∀ i u, before[i]? = some u → load_result w c.use_binary i u = true := by
      intro i u h
      simpa using hok i u h
    have hfail2 : load_result w c.use_binary before.length t = false := by
      simpa using hfail
    exact ⟨before, t, after, hsplit, hok2, hfail2,
      main_first_failure w before after t hparse hsplit hok2 hfail2⟩

/-- Every load event of completed runs is made with the loader of the format in
force. -/
theorem load_calls_format (b : Bool) (ts : List Tuple) :
    ∀ call ∈ load_calls (ts.flatMap (run_events b)), call.2.2 = b := by
  rw [load_calls_run_events]
  intro call h
  obtain ⟨t, _, rfl⟩ := List.mem_map.mp h
  rfl

/-- The events of completed runs are loads of the format in force, reductions
and entries into `benchmark`. -/
theorem run_events_format (b : Bool) (ts : List Tuple) (R : phat.Representation) (f : String) :
    (if b then Event.load_ascii R f else Event.load_binary R f) ∉ ts.flatMap (run_events b) := by
  intro h
  obtain ⟨t, _, ht⟩ := List.mem_flatMap.mp h
  cases b <;> simp [run_events, load_event, reduction_event] at ht <;> split_ifs at ht

/-- C11: after a successful parse the format in force is the one of the last
format flag of the argument list, and binary without a format flag; every load
of the sweep, whatever the loader answers, uses the loader of that format: no
ascii load when the last format flag is `--binary` or there is none, no binary
load when it is `--ascii`. The choice depends on the format flags only, in their
order: argument lists with the same format flags, wherever they stand among
paths and other flags, load alike. -/
theorem loader_follows_last_format_flag (w : World) (args : List String) (c : Config) (s : Sys)
    (hparse : parse_command_line args Config.start Sys.start = .ret c s) :
    c.use_binary = ((args.filterMap format_flag).getLast?).getD true ∧
    (∀ call ∈ load_calls (main w args).2.trace, call.2.2 = c.use_binary) ∧
    ((args.filterMap format_flag).getLast? = some true ∨ args.filterMap format_flag = [] →
      c.use_binary = true ∧ ∀ R f, Event.load_ascii R f ∉ (main w args).2.trace) ∧
    ((args.filterMap format_flag).getLast? = some false →
      c.use_binary = false ∧ ∀ R f, Event.load_binary R f ∉ (main w args).2.trace) ∧
    (∀ (args2 : List String) (c2 : Config) (s2 : Sys),
      parse_command_line args2 Config.start Sys.start = .ret c2 s2 →
      args2.filterMap format_flag = args.filterMap format_flag →
      c2.use_binary = c.use_binary) := by
  have hc := (parsed_config hparse).1
  have hbin : c.use_binary = ((args.filterMap format_flag).getLast?).getD true := by
    rw [hc]; rfl
  have hother : ∀ R f,
      (if c.use_binary then Event.load_ascii R f else Event.load_binary R f)
        ∉ (main w args).2.trace := by
    intro R f
    rcases main_outcome w hparse with ⟨_, hmain⟩ | ⟨before, t, after, _, _, _, hmain⟩
    · rw [hmain]
      simpa [after_runs, Sys.start] using run_events_format c.use_binary (enumeration c) R f
    · rw [hmain]
      have h1 := run_events_format c.use_binary before R f
      simp only [after_failed_load, after_runs, Sys.start, List.nil_append, List.mem_append,
        List.mem_cons, List.mem_singleton, List.not_mem_nil, or_false, not_or]
      refine ⟨h1, ?_, ?_⟩
      · cases c.use_binary <;> simp
      · cases c.use_binary <;> simp [load_event]
  refine ⟨hbin, ?_, ?_, ?_, ?_⟩
  · rcases main_outcome w hparse with ⟨_, hmain⟩ | ⟨before, t, after, _, _, _, hmain⟩
    · rw [hmain]
      simpa [after_runs, Sys.start] using load_calls_format c.use_binary (enumeration c)
    · rw [hmain]
      intro call hcall
      simp only [after_failed_load, after_runs, Sys.start, List.nil_append, load_calls,
        List.filterMap_append, List.mem_append] at hcall
      rcases hcall with hcall | hcall
      · exact load_calls_format c.use_binary before call hcall
      · cases hb : c.use_binary <;> simp [load_event, hb] at hcall <;> rw [hcall]
  · intro h
    have hb : c.use_binary = true := by
      rw [hbin]
      rcases h with h | h
      · rw [h]; rfl
      · rw [h]; rfl
    refine ⟨hb, ?_⟩
    intro R f
    have := hother R f
    rwa [hb] at this
  · intro h
    have hb : c.use_binary = false := by
      rw [hbin, h]; rfl
    refine ⟨hb, ?_⟩
    intro R f
    have := hother R f
    rwa [hb] at this
  · intro args2 c2 s2 hparse2 hsame
    rw [hbin, (parsed_config hparse2).1]
    simp only [format_after, hsame]

/-- Witness of C11: `--ascii` given after `--binary`, with a path in between and a
flag after: the ascii loader is used. -/
theorem loader_follows_last_format_flag_witness :
    (["--binary", "f", "--ascii", "--row"].filterMap format_flag).getLast? = some false ∧
    load_calls (main World.example_ok ["--binary", "f", "--ascii", "--row", "--vector_set",
        "--dual"]).2.trace = [(.vector_set, "f", false)] ∧
    ∀ call ∈ load_calls (main World.example_ok ["--binary", "f", "--ascii", "--row",
        "--vector_set", "--dual"]).2.trace, call.2.2 = false :=
  ⟨by decide, by decide,
   (loader_follows_last_format_flag World.example_ok
     ["--binary", "f", "--ascii", "--row", "--vector_set", "--dual"]
     { use_binary := false, representations := [.VECTOR_SET], algorithms := [.ROW],
       ansaetze := [.DUAL], input_filenames := ["f"] } Sys.start (by decide)).2.1⟩

/-- C12 (the code at the failing input): the usage text documents the option
`--dualize`, and yet `benchmark --dualize f` ends in the usage error, with the
failure status, without any load or reduction; every argument list holding
`--dualize` does. The option that the parser accepts for the dualization
approach is `--dual`, which the usage text does not name. -/
theorem dualize_documented_and_rejected :
    (∃ front back : String,
      help_text =
        front ++ "--dualize   --  use only dualization approach" ++ "\n" ++ back) ∧
    is_option "--dualize" = true ∧ "--dualize" ∉ recognized_flags ∧
    (∀ w : World,
      main w ["--dualize", "f"] = (EXIT_FAILURE, print_help Sys.start) ∧
      (main w ["--dualize", "f"]).2.trace = [] ∧
      (main w ["--dualize", "f"]).2.cerr = help_text) ∧
    (∀ (args : List String) (c : Config) (s : Sys), "--dualize" ∈ args →
      parse_command_line args c s = .exit EXIT_FAILURE (print_help s)) ∧
    parse_command_line ["--dual", "f"] Config.start Sys.start =
      .ret { use_binary := true, representations := default_representations,
             algorithms := default_algorithms, ansaetze := [.DUAL],
             input_filenames := ["f"] } Sys.start := by
  have hbad : ∀ args : List String, "--dualize" ∈ args →
      args = [] ∨ ∃ a ∈ args, is_option a = true ∧ a ∉ recognized_flags :=
    fun args h => Or.inr ⟨"--dualize", h, by decide, by decide⟩
  refine ⟨?_, by decide, by decide, ?_, ?_, by decide⟩
  · refine ⟨"Usage: " ++ "benchmark " ++
        "[options] input_filename_0 input_filename_1 ... input_filename_N" ++ "\n"
        ++ "\n" ++ "Options:" ++ "\n" ++ "\n"
        ++ "--ascii   --  use ascii file format" ++ "\n"
        ++ "--binary  --  use binary file format (default)" ++ "\n"
        ++ "--help    --  prints this screen" ++ "\n",
      "--primal   --  use only primal approach" ++ "\n"
        ++ "--vector_vector, --vector_set, --vector_list, --full_pivot_column, --sparse_pivot_column, --bit_tree_pivot_column  --  use only a subset of representation data structures for boundary matrices" ++ "\n"
        ++ "--standard, --twist, --chunk, --row  --  use only a subset of reduction algorithms" ++ "\n",
      ?_⟩
    simp only [help_text, String.append_assoc]
  · intro w
    rw [main_usage_error w (hbad _ (by decide))]
    exact ⟨rfl, rfl, rfl⟩
  · intro args c s h
    exact parse_command_line_bad args c s (hbad args h)

/-! ## Lemmas on result lines -/

theorem result_line_eq (w : World) (clock : Nat) (t : Tuple) :
    result_line w clock t = line_with t (elapsed_text w clock) := rfl

/-- The labels hold neither a space nor a newline. -/
theorem labels_plain (r : Representation_type) (a : Algorithm_type) (z : Ansatz_type) :
    (' ' ∉ (representation_label r).data ∧ '\n' ∉ (representation_label r).data) ∧
    (' ' ∉ (algorithm_label a).data ∧ '\n' ∉ (algorithm_label a).data) ∧
    (' ' ∉ (ansatz_label z).data ∧ '\n' ∉ (ansatz_label z).data) := by
  cases r <;> cases a <;> cases z <;> decide

/-- C13 (counterexample): the load for the path `a`, newline, `b` succeeds, the
path is printed as it is, and the text written for the tuple holds two newlines:
it is two lines, not one. -/
theorem newline_path_two_lines :
    load_result World.example_ok true 0 ("a\nb", .TWIST, .VECTOR_LIST, .DUAL) = true ∧
    (benchmark World.example_ok "a\nb" true .TWIST .VECTOR_LIST .DUAL Sys.start).state.cout =
      "a\nb vector_list twist_reduction dual 0.0s\n" ∧
    (benchmark World.example_ok "a\nb" true .TWIST .VECTOR_LIST .DUAL
      Sys.start).state.cout.data.count '\n' = 2 ∧
    (main World.example_ok ["a\nb", "--twist", "--vector_list", "--dual"]).2.cout =
      "a\nb vector_list twist_reduction dual 0.0s\n" ∧
    (main World.example_ok ["a\nb", "--twist", "--vector_list", "--dual"]).1 = 0 := by
  decide

/-- C13 (amended): for every tuple whose load succeeds, `benchmark` returns and the
text it adds to the standard output is exactly the path, the representation
label, the algorithm label, the ansatz label and the elapsed time immediately
followed by `s`, separated by single spaces and ended by a newline (the elapsed
time being whatever text the number prints as). No label holds a space or a
newline and the text always ends with a newline; it holds one newline more than
the path and the elapsed text together, so it is exactly one line if and only
if neither the path nor the elapsed text holds a newline. -/
theorem completed_run_line (w : World) (f : String) (b : Bool) (a : Algorithm_type)
    (r : Representation_type) (z : Ansatz_type) (s : Sys)
    (hload : load_result w b s.loads (f, a, r, z) = true) :
    ∃ s1, benchmark w f b a r z s = .ret () s1 ∧
      s1.cout =
        s.cout ++ (f ++ " " ++ representation_label r ++ " " ++ algorithm_label a ++ " "
          ++ ansatz_label z ++ " "
          ++ w.show_elapsed (w.omp_get_wtime (s.clock + 1)) (w.omp_get_wtime s.clock)
          ++ "s" ++ "\n") ∧
      s1.cerr = s.cerr ∧
      (' ' ∉ (representation_label r).data ∧ '\n' ∉ (representation_label r).data) ∧
      (' ' ∉ (algorithm_label a).data ∧ '\n' ∉ (algorithm_label a).data) ∧
      (' ' ∉ (ansatz_label z).data ∧ '\n' ∉ (ansatz_label z).data) ∧
      (line_with (f, a, r, z) (elapsed_text w s.clock)).data.getLast? = some '\n' ∧
      (line_with (f, a, r, z) (elapsed_text w s.clock)).data.count '\n' =
        f.data.count '\n' + (elapsed_text w s.clock).data.count '\n' + 1 ∧
      ((line_with (f, a, r, z) (elapsed_text w s.clock)).data.count '\n' = 1 ↔
        '\n' ∉ f.data ∧ '\n' ∉ (elapsed_text w s.clock).data) := by
  have hrun : benchmark w f b a r z s = run_tuple w b (f, a, r, z) s := rfl
  obtain ⟨⟨hr1, hr2⟩, ⟨ha1, ha2⟩, ⟨hz1, hz2⟩⟩ := labels_plain r a z
  have hsp : (" " : String).data = [' '] := rfl
  have hs : ("s" : String).data = ['s'] := rfl
  have hn : ("\n" : String).data = ['\n'] := rfl
  have hcount : (line_with (f, a, r, z) (elapsed_text w s.clock)).data.count '\n' =
      f.data.count '\n' + (elapsed_text w s.clock).data.count '\n' + 1 := by
    have h1 : List.count '\n' [' '] = 0 := by decide
    have h2 : List.count '\n' ['s'] = 0 := by decide
    have h3 : List.count '\n' ['\n'] = 1 := by decide
    simp only [line_with, String.data_append, List.count_append, hsp, hs, hn,
      List.count_eq_zero_of_not_mem hr2, List.count_eq_zero_of_not_mem ha2,
      List.count_eq_zero_of_not_mem hz2, h1, h2, h3]
    omega
  refine ⟨after_runs w b [(f, a, r, z)] s, ?_, ?_, rfl, ⟨hr1, hr2⟩, ⟨ha1, ha2⟩, ⟨hz1, hz2⟩,
    ?_, hcount, ?_⟩
  · rw [hrun, run_tuple_ok w b _ s hload]
  · simp [after_runs, result_lines, concat, result_line]
  · simp only [line_with, String.data_append, hn]
    rw [List.getLast?_append]
    rfl
  · rw [hcount]
    constructor
    · intro h
      have hf : f.data.count '\n' = 0 := by omega
      have he : (elapsed_text w s.clock).data.count '\n' = 0 := by omega
      exact ⟨List.count_eq_zero.mp hf, List.count_eq_zero.mp he⟩
    · rintro ⟨hf, he⟩
      rw [List.count_eq_zero_of_not_mem hf, List.count_eq_zero_of_not_mem he]

/-- Witness of C13: the binary load of `f` for (Twist, VectorList, Dual) succeeds. -/
theorem completed_run_line_witness :
    load_result World.example_ok true 0 ("f", .TWIST, .VECTOR_LIST, .DUAL) = true ∧
    ∃ s1, benchmark World.example_ok "f" true .TWIST .VECTOR_LIST .DUAL Sys.start = .ret () s1 ∧
      s1.cout = "f vector_list twist_reduction dual 0.0s\n" :=
  ⟨by decide,
   (completed_run_line World.example_ok "f" true .TWIST .VECTOR_LIST .DUAL Sys.start
     (by decide)).imp fun _ h => ⟨h.1, h.2.1⟩⟩

/-- C14: for every non-empty argument list made only of recognized non-help flags,
parsing succeeds with no input path and the sweep performs zero runs: `main`
ends with status 0 in the state it started in, so there is no entry into
`benchmark`, no load, no reduction, and nothing on either stream. -/
theorem flags_only_is_silent_success (w : World) (args : List String) (hne : args ≠ [])
    (hflags : ∀ a ∈ args, a ∈ recognized_flags) :
    (∃ c, parse_command_line args Config.start Sys.start = .ret c Sys.start ∧
      c.input_filenames = [] ∧ enumeration c = []) ∧
    main w args = (0, Sys.start) ∧
    (main w args).1 = 0 ∧
    (main w args).2.trace = [] ∧
    load_calls (main w args).2.trace = [] ∧
    reduction_calls (main w args).2.trace = [] ∧
    (main w args).2.cout = "" ∧
    (main w args).2.cerr = "" := by
  have hok := parse_command_line_ok args Config.start Sys.start hne
    (fun a ha _ => hflags a ha)
  have hc := (parsed_config hok).1
  have hpaths : args.filter (fun a => !is_option a) = [] := by
    rw [List.filter_eq_nil_iff]
    intro a ha
    simp [flag_is_option (hflags a ha)]
  have hnames : (fill_defaults (scanned args Config.start)).input_filenames = [] := by
    rw [hc]
    exact hpaths
  have henum : enumeration (fill_defaults (scanned args Config.start)) = [] := by
    simp [enumeration, hnames]
  have hmain : main w args = (0, Sys.start) := by
    rw [main_all_ok w hok (by intro i t h; rw [henum] at h; simp at h), henum, after_runs_nil]
  refine ⟨⟨_, hok, hnames, henum⟩, hmain, ?_⟩
  rw [hmain]
  exact ⟨rfl, rfl, rfl, rfl, rfl, rfl⟩

/-- Witness of C14: `benchmark --ascii --twist --twist --dual`. -/
theorem flags_only_is_silent_success_witness :
    ["--ascii", "--twist", "--twist", "--dual"] ≠ [] ∧
    (∀ a ∈ ["--ascii", "--twist", "--twist", "--dual"], a ∈ recognized_flags) ∧
    main World.example_ok ["--ascii", "--twist", "--twist", "--dual"] = (0, Sys.start) :=
  ⟨by decide, by decide,
   (flags_only_is_silent_success World.example_ok ["--ascii", "--twist", "--twist", "--dual"]
     (by decide) (by decide)).2.1⟩

/-! ## Lemmas on the dependence on the timer -/

theorem load_result_congr {w1 w2 : World} (hb : w1.load_binary = w2.load_binary)
    (ha : w1.load_ascii = w2.load_ascii) (b : Bool) (n : Nat) (t : Tuple) :
    load_result w1 b n t = load_result w2 b n t := by
  simp only [load_result, hb, ha]

theorem completed_runs_all (w : World) (b : Bool) (ts : List Tuple) (status : Int) :
    completed_runs (status, after_runs w b ts Sys.start) = ts := by
  simp [completed_runs, run_count, after_runs, Sys.start, invocations_run_events,
    reduction_calls_run_events]

theorem completed_runs_failed (w : World) (b : Bool) (before : List Tuple) (t : Tuple)
    (status : Int) :
    completed_runs (status, after_failed_load b t (after_runs w b before Sys.start)) =
      before := by
  have h1 : invocations (before.flatMap (run_events b) ++
      [Event.benchmark t.1 b t.2.1 t.2.2.1 t.2.2.2, load_event b t]) = before ++ [t] := by
    rw [invocations, List.filterMap_append, ← invocations, invocations_run_events]
    cases b <;> simp [load_event]
  have h2 : reduction_calls (before.flatMap (run_events b) ++
      [Event.benchmark t.1 b t.2.1 t.2.2.1 t.2.2.2, load_event b t]) =
      before.map reduction_of := by
    rw [reduction_calls, List.filterMap_append, ← reduction_calls, reduction_calls_run_events]
    cases b <;> simp [load_event]
  simp only [completed_runs, run_count, after_failed_load, after_runs, Sys.start,
    List.nil_append, h1, h2, List.length_map]
  simp

/-- C15: two runs of the program on the same argument list, in worlds whose
loaders answer alike and whose timers (and the elapsed times printed from them)
may differ, end with the same exit status, the same trace of invocations, loads
and reductions and the same text on the error stream; they complete the same
tuples in the same order, and their standard outputs are the result lines of
those tuples, each with its own elapsed field, followed by the same unfinished
text: only the elapsed fields may differ. -/
theorem timing_independent (w1 w2 : World) (args : List String)
    (hb : w1.load_binary = w2.load_binary) (ha : w1.load_ascii = w2.load_ascii) :
    (main w1 args).1 = (main w2 args).1 ∧
    (main w1 args).2.trace = (main w2 args).2.trace ∧
    (main w1 args).2.cerr = (main w2 args).2.cerr ∧
    completed_runs (main w1 args) = completed_runs (main w2 args) ∧
    ∃ unfinished : String,
      (main w1 args).2.cout =
        concat (result_lines w1 0 (completed_runs (main w1 args))) ++ unfinished ∧
      (main w2 args).2.cout =
        concat (result_lines w2 0 (completed_runs (main w1 args))) ++ unfinished := by
  rcases parse_command_line_cases args Config.start Sys.start with
    ⟨_, _, hparse⟩ | ⟨hbad, _⟩
  · rcases main_outcome w1 hparse with
      ⟨hall, hmain1⟩ | ⟨before, t, after, hsplit, hok, hfail, hmain1⟩
    · have hmain2 := main_all_ok w2 hparse
        (fun i t h => (load_result_congr hb ha _ i t) ▸ hall i t h)
      rw [hmain1, hmain2, completed_runs_all, completed_runs_all]
      refine ⟨rfl, rfl, rfl, rfl, "", ?_, ?_⟩ <;> simp [after_runs, Sys.start]
    · have hmain2 := main_first_failure w2 before after t hparse hsplit
        (fun i u h => (load_result_congr hb ha _ i u) ▸ hok i u h)
        ((load_result_congr hb ha _ _ t) ▸ hfail)
      rw [hmain1, hmain2, completed_runs_failed, completed_runs_failed]
      refine ⟨rfl, rfl, rfl, rfl, line_start t, ?_, ?_⟩ <;>
        simp [after_failed_load, after_runs, Sys.start]
  · rw [main_usage_error w1 hbad, main_usage_error w2 hbad]
    exact ⟨rfl, rfl, rfl, rfl, "", rfl, rfl⟩

/-- Witness of C15: `benchmark f --vector_vector --primal` with the second load
failing, under two different timers. -/
theorem timing_independent_witness :
    (World.example_failing 1).load_binary = (World.example_slow 1).load_binary ∧
    (main (World.example_failing 1) ["f", "--vector_vector", "--primal"]).2.cout =
      "f vector_vector standard_reduction primal 0.0s\nf vector_vector twist_reduction" ∧
    (main (World.example_slow 1) ["f", "--vector_vector", "--primal"]).2.cout =
      "f vector_vector standard_reduction primal 12.5s\nf vector_vector twist_reduction" ∧
    (main (World.example_failing 1) ["f", "--vector_vector", "--primal"]).1 =
      (main (World.example_slow 1) ["f", "--vector_vector", "--primal"]).1 ∧
    completed_runs (main (World.example_failing 1) ["f", "--vector_vector", "--primal"]) =
      completed_runs (main (World.example_slow 1) ["f", "--vector_vector", "--primal"]) :=
  have h := timing_independent (World.example_failing 1) (World.example_slow 1)
    ["f", "--vector_vector", "--primal"] rfl rfl
  ⟨rfl, by decide, by decide, h.1, h.2.2.2.1⟩

/-! ## Lemmas on labels and fields -/

/-- Two texts cut at a separator that the parts after it do not hold are cut at
the same place. -/
theorem cut_at_first {sep : Char} (p : List Char) :
    ∀ (q r r2 : List Char), sep ∉ p → sep ∉ q → p ++ sep :: r = q ++ sep :: r2 →
      p = q ∧ r = r2 := by
  induction p with
  | nil =>
    intro q r r2 _ hq h
    cases q with
    | nil => exact ⟨rfl, by simpa using h⟩
    | cons c q =>
      simp only [List.nil_append, List.cons_append, List.cons.injEq] at h
      exact absurd (h.1 ▸ List.mem_cons_self _ _) hq
  | cons b p ih =>
    intro q r r2 hp hq h
    cases q with
    | nil =>
      simp only [List.nil_append, List.cons_append, List.cons.injEq] at h
      exact absurd (h.1 ▸ List.mem_cons_self _ _) hp
    | cons c q =>
      simp only [List.cons_append, List.cons.injEq] at h
      obtain ⟨h1, h2⟩ := ih q r r2 (fun hm => hp (List.mem_cons_of_mem _ hm))
        (fun hm => hq (List.mem_cons_of_mem _ hm)) h.2
      exact ⟨by rw [h.1, h1], h2⟩

/-- Two texts cut at the last separator are cut at the same place. -/
theorem cut_at_last {sep : Char} {x y l1 l2 : List Char} (h1 : sep ∉ l1) (h2 : sep ∉ l2)
    (h : x ++ sep :: l1 = y ++ sep :: l2) : x = y ∧ l1 = l2 := by
  have hrev := congrArg List.reverse h
  simp only [List.reverse_append, List.reverse_cons, List.append_assoc, List.singleton_append]
    at hrev
  obtain ⟨e1, e2⟩ := cut_at_first l1.reverse l2.reverse x.reverse y.reverse
    (by simpa using h1) (by simpa using h2) hrev
  exact ⟨List.reverse_injective e2, List.reverse_injective e1⟩

theorem line_with_data (t : Tuple) (elapsed : String) :
    (line_with t elapsed).data =
      (((t.1.data ++ ' ' :: (representation_label t.2.2.1).data)
        ++ ' ' :: (algorithm_label t.2.1).data)
        ++ ' ' :: (ansatz_label t.2.2.2).data)
        ++ ' ' :: (elapsed.data ++ ['s', '\n']) := by
  have hsp : (" " : String).data = [' '] := rfl
  have hs : ("s" : String).data = ['s'] := rfl
  have hn : ("\n" : String).data = ['\n'] := rfl
  simp [line_with, String.data_append, hsp, hs, hn, List.append_assoc]

theorem representation_label_injective : Function.Injective representation_label := by
  intro r1 r2 h
  cases r1 <;> cases r2 <;> first | rfl | exact absurd h (by decide)

theorem algorithm_label_injective : Function.Injective algorithm_label := by
  intro a1 a2 h
  cases a1 <;> cases a2 <;> first | rfl | exact absurd h (by decide)

theorem ansatz_label_injective : Function.Injective ansatz_label := by
  intro z1 z2 h
  cases z1 <;> cases z2 <;> first | rfl | exact absurd h (by decide)

/-- A result line whose elapsed field holds no space determines its path, its
three kinds and its elapsed text. -/
theorem line_with_injective {t1 t2 : Tuple} {e1 e2 : String}
    (h1 : ' ' ∉ e1.data) (h2 : ' ' ∉ e2.data) (h : line_with t1 e1 = line_with t2 e2) :
    t1 = t2 ∧ e1 = e2 := by
  obtain ⟨f1, a1, r1, z1⟩ := t1
  obtain ⟨f2, a2, r2, z2⟩ := t2
  have hd := congrArg String.data h
  rw [line_with_data, line_with_data] at hd
  simp only at hd
  obtain ⟨hd1, he⟩ := cut_at_last (by simpa using h1) (by simpa using h2) hd
  obtain ⟨hd2, hz⟩ := cut_at_last (labels_plain r1 a1 z1).2.2.1 (labels_plain r2 a2 z2).2.2.1 hd1
  obtain ⟨hd3, hal⟩ := cut_at_last (labels_plain r1 a1 z1).2.1.1 (labels_plain r2 a2 z2).2.1.1 hd2
  obtain ⟨hf, hr⟩ := cut_at_last (labels_plain r1 a1 z1).1.1 (labels_plain r2 a2 z2).1.1 hd3
  have hz2 := ansatz_label_injective (String.ext hz)
  have ha2 := algorithm_label_injective (String.ext hal)
  have hr2 := representation_label_injective (String.ext hr)
  have hf2 : f1 = f2 := String.ext hf
  have he2 : e1 = e2 := String.ext (List.append_cancel_right he)
  subst hz2 ha2 hr2 hf2 he2
  exact ⟨rfl, rfl⟩

/-- C16: flag-to-label round trip. A representation flag makes the parser select
a kind whose printed label is the flag without its leading `--`; an ansatz flag
likewise; an algorithm flag selects a kind whose label is the flag without `--`
followed by `_reduction`; and every kind is selected by the flag made from its
label. These labels are the ones that `benchmark` writes. The three label
functions are injective, and a result line (whose elapsed field, a printed
number, holds no space) determines its path, representation, algorithm and
ansatz uniquely. -/
theorem flag_label_round_trip :
    (∀ (token : String) (r : Representation_type), representation_flag token = some r →
      (∀ c s, parse_argument token c s =
        .ret { c with representations := c.representations ++ [r] } s) ∧
      token = "--" ++ representation_label r) ∧
    (∀ (token : String) (a : Algorithm_type), algorithm_flag token = some a →
      (∀ c s, parse_argument token c s =
        .ret { c with algorithms := c.algorithms ++ [a] } s) ∧
      token ++ "_reduction" = "--" ++ algorithm_label a) ∧
    (∀ (token : String) (z : Ansatz_type), ansatz_flag token = some z →
      (∀ c s, parse_argument token c s =
        .ret { c with ansaetze := c.ansaetze ++ [z] } s) ∧
      token = "--" ++ ansatz_label z) ∧
    (∀ r, representation_flag ("--" ++ representation_label r) = some r) ∧
    (∀ a token, token ++ "_reduction" = "--" ++ algorithm_label a →
      algorithm_flag token = some a) ∧
    (∀ z, ansatz_flag ("--" ++ ansatz_label z) = some z) ∧
    (∀ (w : World) (f : String) (b : Bool) (a : Algorithm_type) (r : Representation_type)
        (z : Ansatz_type) (s : Sys),
      load_result w b s.loads (f, a, r, z) = true →
      ∃ s1, benchmark w f b a r z s = .ret () s1 ∧
        s1.cout = s.cout ++ line_with (f, a, r, z) (elapsed_text w s.clock)) ∧
    Function.Injective representation_label ∧
    Function.Injective algorithm_label ∧
    Function.Injective ansatz_label ∧
    (∀ (t1 t2 : Tuple) (e1 e2 : String), ' ' ∉ e1.data → ' ' ∉ e2.data →
      line_with t1 e1 = line_with t2 e2 → t1 = t2 ∧ e1 = e2) := by
  refine ⟨?_, ?_, ?_, ?_, ?_, ?_, ?_, representation_label_injective,
    algorithm_label_injective, ansatz_label_injective,
    fun t1 t2 e1 e2 h1 h2 h => line_with_injective h1 h2 h⟩
  · intro token r h
    simp only [representation_flag] at h
    split_ifs at h with h1 h2 h3 h4 h5 h6 <;> cases h <;> subst token <;>
      exact ⟨fun c s => by simp [parse_argument]; decide, by decide⟩
  · intro token a h
    simp only [algorithm_flag] at h
    split_ifs at h with h1 h2 h3 h4 <;> cases h <;> subst token <;>
      exact ⟨fun c s => by simp [parse_argument]; decide, by decide⟩
  · intro token z h
    simp only [ansatz_flag] at h
    split_ifs at h with h1 h2 <;> cases h <;> subst token <;>
      exact ⟨fun c s => by simp [parse_argument]; decide, by decide⟩
  · intro r
    cases r <;> decide
  · intro a token h
    have key : ∀ name : String, "--" ++ algorithm_label a = name ++ "_reduction" →
        token = name := by
      intro name hn
      rw [hn] at h
      have h2 := congrArg String.data h
      rw [String.data_append, String.data_append] at h2
      exact String.ext (List.append_cancel_right h2)
    cases a
    · rw [key "--standard" (by decide)]; decide
    · rw [key "--twist" (by decide)]; decide
    · rw [key "--row" (by decide)]; decide
    · rw [key "--chunk" (by decide)]; decide
  · intro z
    cases z <;> decide
  · intro w f b a r z s hload
    have hrun : benchmark w f b a r z s = run_tuple w b (f, a, r, z) s := rfl
    refine ⟨after_runs w b [(f, a, r, z)] s, ?_, ?_⟩
    · rw [hrun, run_tuple_ok w b _ s hload]
    · simp [after_runs, result_lines, concat, result_line_eq]

/-- Witness of C16: the flag `--bit_tree_pivot_column`, and a result line with the
elapsed field `0.0`. -/
theorem flag_label_round_trip_witness :
    representation_flag "--bit_tree_pivot_column" = some .BIT_TREE_PIVOT_COLUMN ∧
    "--bit_tree_pivot_column" = "--" ++ representation_label .BIT_TREE_PIVOT_COLUMN ∧
    ' ' ∉ ("0.0" : String).data ∧
    line_with ("f", .ROW, .VECTOR_SET, .DUAL) "0.0" = "f vector_set row_reduction dual 0.0s\n" ∧
    ((("f", .ROW, .VECTOR_SET, .DUAL) : Tuple) = ("f", .ROW, .VECTOR_SET, .DUAL) ∧
      ("0.0" : String) = "0.0") :=
  ⟨by decide,
   (flag_label_round_trip.1 "--bit_tree_pivot_column" .BIT_TREE_PIVOT_COLUMN (by decide)).2,
   by decide, by decide,
   flag_label_round_trip.2.2.2.2.2.2.2.2.2.2 ("f", .ROW, .VECTOR_SET, .DUAL)
     ("f", .ROW, .VECTOR_SET, .DUAL) "0.0" "0.0" (by decide) (by decide) rfl⟩

end PhatBenchmark
